import Mathlib

/-!
Verification of the `nagaoshi` long-press library (src/src/index.ts).

The file shallowly embeds the two components of the library:

* the Press Controller (`nagaoshi`): a closure over the mutable variables
  `longPressTimeoutId`, `intervalId`, `isLongPress`, `isKeyDown`, with six
  element listeners and a returned disposer;
* the Ambient Long-Press Detector (`handleLongPressDetection` plus the
  module-level `document` listener).

Timers (`setTimeout` / `setInterval`) are modelled by explicit pending-timer
lists inside a discrete-event system state; a fuel-indexed `advanceTo`
function fires every pending timer due up to a target time, in (due, id)
order, matching the single-threaded host event loop and the fake-timer
semantics the repository's own tests rely on (timers due at time `t` run
before an input event delivered at time `t`).  `setInterval` periods are
clamped to at least 1, mirroring the host timer subsystem's clamp.
-/

namespace Nagaoshi

/-- Observable callback/side-effect outputs of a press controller:
the user `action`, the optional `onStart` / `onFinish` / `onCancel`
callbacks, and writes of the `aria-pressed` attribute. -/
inductive Out where
  | action
  | start
  | finish
  | cancel
  | ariaSet (b : Bool)
  deriving DecidableEq, Repr

/-- Keyboard keys, collapsed to what `handleKeyAction` distinguishes:
the activation keys Enter and Space versus everything else. -/
inductive Key where
  | enter
  | space
  | other
  deriving DecidableEq, Repr

/-- `key === 'Enter' || key === ' '` from `handleKeyAction`. -/
def isEnterOrSpace : Key → Bool
  | Key.enter => true
  | Key.space => true
  | Key.other => false

/-- The six element listeners registered by `nagaoshi`. -/
inductive LName where
  | pdown
  | pup
  | pleave
  | pcancel
  | kdown
  | kup
  deriving DecidableEq, Repr

/-- Registration order of the six listeners in `nagaoshi`. -/
def allListeners : List LName :=
  [LName.pdown, LName.pup, LName.pleave, LName.pcancel, LName.kdown, LName.kup]

/-- `NagaoshiOptions` plus the `action` argument's presence is implicit:
`action` is always invoked (the default is a no-op function, still a call).
The three optional callbacks are modelled by presence flags, matching the
optional-chaining guards `onStart?.()` etc. -/
structure Config where
  interval : Nat
  delay : Nat
  hasOnStart : Bool
  hasOnFinish : Bool
  hasOnCancel : Bool
  deriving DecidableEq, Repr

/-- `DEFAULT_INTERVAL = 75` in the source. -/
def DEFAULT_INTERVAL : Nat := 75

/-- `DEFAULT_DELAY = 1000` in the source. -/
def DEFAULT_DELAY : Nat := 1000

/-- The configuration obtained from `nagaoshi(element, action)` with no
options object: default interval and delay, no callbacks. -/
def defCfg : Config :=
  { interval := DEFAULT_INTERVAL, delay := DEFAULT_DELAY,
    hasOnStart := false, hasOnFinish := false, hasOnCancel := false }

/-- The period actually used by the host's `setInterval`: periods below 1
are clamped to 1 by the timer subsystem. -/
def period (cfg : Config) : Nat := max 1 cfg.interval

/-- State of one press controller together with its host timer queue.
`timeouts` / `intervals` hold the pending timers as `(id, due)` pairs
(`id` drawn from the shared `nextId` counter, intervals all have period
`period cfg`); the four closure variables of `nagaoshi` keep their source
names; `listeners` is the set of element listeners still registered;
`aria` is the element's `aria-pressed` attribute (`none` = never written);
`log` records the observable outputs in chronological order with their
times. -/
structure CSys where
  time : Nat
  nextId : Nat
  timeouts : List (Nat × Nat)
  intervals : List (Nat × Nat)
  longPressTimeoutId : Option Nat
  intervalId : Option Nat
  isLongPress : Bool
  isKeyDown : Bool
  listeners : List LName
  aria : Option Bool
  log : List (Nat × Out)
  deriving DecidableEq, Repr

/-- State right after `nagaoshi` returns: all six listeners registered,
both timer handles null, both flags false. -/
def initC : CSys :=
  { time := 0, nextId := 0, timeouts := [], intervals := [],
    longPressTimeoutId := none, intervalId := none,
    isLongPress := false, isKeyDown := false,
    listeners := allListeners, aria := none, log := [] }

/-- Append an output to the log when the corresponding callback is
provided (`cb?.()`). -/
def logIf (b : Bool) (o : Out) (s : CSys) : CSys :=
  if b then { s with log := s.log ++ [(s.time, o)] } else s

/-- Append an unconditional output (the `action()` call). -/
def pushLog (o : Out) (s : CSys) : CSys :=
  { s with log := s.log ++ [(s.time, o)] }

/-- `target.setAttribute('aria-pressed', b)`. -/
def setAria (b : Bool) (s : CSys) : CSys :=
  { s with aria := some b, log := s.log ++ [(s.time, Out.ariaSet b)] }

/-- `clearTimeout` / `clearInterval`: drop the pending timer with the
given id (a no-op when the id is not pending). -/
def removeTimer : Nat → List (Nat × Nat) → List (Nat × Nat)
  | _, [] => []
  | i, p :: r => if p.1 = i then removeTimer i r else p :: removeTimer i r

/-- Reschedule the interval with id `i` to its next due time. -/
def setDue : Nat → Nat → List (Nat × Nat) → List (Nat × Nat)
  | _, _, [] => []
  | i, d, p :: r => if p.1 = i then (i, d) :: setDue i d r else p :: setDue i d r

/-- `startLongPress`: fire `onStart?.()`, set `aria-pressed` to `"true"`
when the event is a `PointerEvent`, then schedule the delay timeout and
store its handle in `longPressTimeoutId`. -/
def startLongPress (cfg : Config) (isPointer : Bool) (s : CSys) : CSys :=
  let s1 := logIf cfg.hasOnStart Out.start s
  let s2 := if isPointer then setAria true s1 else s1
  { s2 with
    timeouts := s2.timeouts ++ [(s2.nextId, s2.time + cfg.delay)],
    longPressTimeoutId := some s2.nextId,
    nextId := s2.nextId + 1 }

/-- `stopLongPress`: clear `intervalId` and `longPressTimeoutId` if
present, fire `onFinish?.()` when `isLongPress` was set, reset
`isLongPress`, set `aria-pressed` to `"false"` for pointer events, and
fire `onCancel?.()` when invoked with `isCancelled = true`. -/
def stopLongPress (cfg : Config) (isPointer isCancelled : Bool) (s : CSys) : CSys :=
  let s1 :=
    match s.intervalId with
    | some i => { s with intervals := removeTimer i s.intervals, intervalId := none }
    | none => s
  let s2 :=
    match s1.longPressTimeoutId with
    | some i => { s1 with timeouts := removeTimer i s1.timeouts, longPressTimeoutId := none }
    | none => s1
  let s3 := logIf (s2.isLongPress && cfg.hasOnFinish) Out.finish s2
  let s4 := { s3 with isLongPress := false }
  let s5 := if isPointer then setAria false s4 else s4
  logIf (isCancelled && cfg.hasOnCancel) Out.cancel s5

/-- `handleShortPress`: when the press has not matured into a long press,
invoke `action()` and `onFinish?.()`, then delegate to `stopLongPress`
with `isCancelled = false`. -/
def handleShortPress (cfg : Config) (isPointer : Bool) (s : CSys) : CSys :=
  let s1 := if s.isLongPress then s else logIf cfg.hasOnFinish Out.finish (pushLog Out.action s)
  stopLongPress cfg isPointer false s1

/-- `handleKeyAction`: ignore non-activation keys; on `keydown` while not
already key-held, set `isKeyDown` and start the press; on `keyup`, reset
`isKeyDown` and run the short-press path. -/
def handleKeyAction (cfg : Config) (k : Key) (isDown : Bool) (s : CSys) : CSys :=
  if isEnterOrSpace k = false then s
  else if isDown && !s.isKeyDown then
    startLongPress cfg false { s with isKeyDown := true }
  else if !isDown then
    handleShortPress cfg false { s with isKeyDown := false }
  else s

/-- External inputs to one controller: the six DOM events it listens to,
plus a call to the returned disposer. -/
inductive Input where
  | pointerdown
  | pointerup
  | pointerleave
  | pointercancel
  | keydown (k : Key)
  | keyup (k : Key)
  | dispose
  deriving DecidableEq, Repr

/-- The listener a DOM input is routed through (`none` for the disposer
call, which is not an event). -/
def listenerOf : Input → Option LName
  | Input.pointerdown => some LName.pdown
  | Input.pointerup => some LName.pup
  | Input.pointerleave => some LName.pleave
  | Input.pointercancel => some LName.pcancel
  | Input.keydown _ => some LName.kdown
  | Input.keyup _ => some LName.kup
  | Input.dispose => none

/-- The handler body attached to each listener (`onPointerDown` etc.). -/
def handle (cfg : Config) (s : CSys) : Input → CSys
  | Input.pointerdown => startLongPress cfg true s
  | Input.pointerup => handleShortPress cfg true s
  | Input.pointerleave => stopLongPress cfg true true s
  | Input.pointercancel => stopLongPress cfg true true s
  | Input.keydown k => handleKeyAction cfg k true s
  | Input.keyup k => handleKeyAction cfg k false s
  | Input.dispose => s

/-- The disposer body: six `removeEventListener` calls, each erasing one
registration if still present.  Timers are NOT touched (faithful to the
source, which only removes listeners). -/
def disposeAll (l : List LName) : List LName :=
  (((((l.erase LName.pdown).erase LName.pup).erase LName.pleave).erase
      LName.pcancel).erase LName.kdown).erase LName.kup

/-- Deliver one input to the controller: a DOM event runs its handler
only while the corresponding listener is registered; the disposer call
always runs and only removes listeners. -/
def deliver (cfg : Config) (s : CSys) (e : Input) : CSys :=
  match listenerOf e with
  | some n => if n ∈ s.listeners then handle cfg s e else s
  | none => { s with listeners := disposeAll s.listeners }

/-- A reference to a pending timer: the delay timeout or a repeat
interval, with its id and due time. -/
inductive TRef where
  | to (tid due : Nat)
  | iv (tid due : Nat)
  deriving DecidableEq, Repr

/-- Due time of a timer reference. -/
def TRef.due : TRef → Nat
  | TRef.to _ d => d
  | TRef.iv _ d => d

/-- Id of a timer reference. -/
def TRef.tid : TRef → Nat
  | TRef.to i _ => i
  | TRef.iv i _ => i

/-- Strict scheduling order: earlier due time first, creation id as the
tie-break (FIFO among timers due at the same instant). -/
def better (a b : TRef) : Bool :=
  a.due < b.due || (a.due = b.due && a.tid < b.tid)

/-- Fold step choosing the scheduling-least timer reference. -/
def pick (o : Option TRef) (r : TRef) : Option TRef :=
  match o with
  | none => some r
  | some a => if better r a then some r else some a

/-- All pending timers due at or before `t`. -/
def candidates (s : CSys) (t : Nat) : List TRef :=
  (s.timeouts.filterMap fun p => if p.2 ≤ t then some (TRef.to p.1 p.2) else none) ++
  (s.intervals.filterMap fun p => if p.2 ≤ t then some (TRef.iv p.1 p.2) else none)

/-- The next timer the host event loop will run, if any is due by `t`. -/
def findNext (s : CSys) (t : Nat) : Option TRef :=
  (candidates s t).foldl pick none

/-- Run one timer callback.  The delay-timeout callback (source lines
75-80) sets `isLongPress`, starts the repeat interval and stores its
handle — note it does NOT null `longPressTimeoutId`.  The interval
callback invokes `action()` and the interval is rescheduled one period
later.  The fired timer's clock time becomes the current time. -/
def fireRef (cfg : Config) (r : TRef) (s : CSys) : CSys :=
  match r with
  | TRef.to i due =>
    let s1 := { s with time := due, timeouts := removeTimer i s.timeouts }
    { s1 with
      isLongPress := true,
      intervals := s1.intervals ++ [(s1.nextId, due + period cfg)],
      intervalId := some s1.nextId,
      nextId := s1.nextId + 1 }
  | TRef.iv i due =>
    { s with
      time := due,
      intervals := setDue i (due + period cfg) s.intervals,
      log := s.log ++ [(due, Out.action)] }

/-- Advance the clock to `t`, firing every timer due at or before `t` in
scheduling order.  `fuel` bounds the number of firings; `none` means the
fuel was insufficient (never the case in the theorems below, which always
establish a `some` result). -/
def advanceTo (cfg : Config) : Nat → CSys → Nat → Option CSys
  | fuel, s, t =>
    match findNext s t with
    | none => some { s with time := t }
    | some r =>
      match fuel with
      | 0 => none
      | fuel' + 1 => advanceTo cfg fuel' (fireRef cfg r s) t

/-- Run a chronological schedule of timed inputs, advancing the timer
queue before each delivery (timers due at time `t` run before an input
delivered at `t`, as in the host event loop and the repo's fake-timer
tests). -/
def runEvents (cfg : Config) (fuel : Nat) : CSys → List (Nat × Input) → Option CSys
  | s, [] => some s
  | s, (t, e) :: rest =>
    match advanceTo cfg fuel s t with
    | none => none
    | some s' => runEvents cfg fuel (deliver cfg s' e) rest

/-- Run a schedule from the freshly constructed controller, then let the
clock advance to `horizon` so that trailing timers get to fire. -/
def runTo (cfg : Config) (fuel : Nat) (sched : List (Nat × Input)) (horizon : Nat) :
    Option CSys :=
  match runEvents cfg fuel initC sched with
  | none => none
  | some s => advanceTo cfg fuel s horizon

/-- Number of log entries carrying a given output. -/
def countOut (o : Out) : List (Nat × Out) → Nat
  | [] => 0
  | p :: r => (if p.2 = o then 1 else 0) + countOut o r

/-- Log prefix of every pointer-initiated press started at time 0 with an
`onStart` callback: the `onStart` call and the `aria-pressed = true` write. -/
def zeroLog : List (Nat × Out) := [(0, Out.start), (0, Out.ariaSet true)]

/-- Controller state right after a pointer-down at time 0 (with `onStart`
provided): the delay timeout (id 0) is pending, due at `delay`. -/
def s1c (cfg : Config) : CSys :=
  { time := 0, nextId := 1, timeouts := [(0, cfg.delay)], intervals := [],
    longPressTimeoutId := some 0, intervalId := none, isLongPress := false,
    isKeyDown := false, listeners := allListeners, aria := some true, log := zeroLog }

/-- The action firings logged by the first `k` interval ticks: times
`delay + interval, delay + 2·interval, …, delay + k·interval`. -/
def tickLog (cfg : Config) (k : Nat) : List (Nat × Out) :=
  (List.range k).map fun j => (cfg.delay + (j + 1) * period cfg, Out.action)

/-- Controller state after the delay timeout has fired and `k` interval
ticks have run: `isLongPress` is set, the repeat interval (id 1) is
pending, and — faithfully to the source — `longPressTimeoutId` still
holds the stale handle of the already-fired delay timeout. -/
def midState (cfg : Config) (k : Nat) : CSys :=
  { time := cfg.delay + k * period cfg, nextId := 2, timeouts := [],
    intervals := [(1, cfg.delay + (k + 1) * period cfg)],
    longPressTimeoutId := some 0, intervalId := some 1, isLongPress := true,
    isKeyDown := false, listeners := allListeners, aria := some true,
    log := zeroLog ++ tickLog cfg k }

/-- A controller at rest: no pending timers, both handles null, flags
reset — only the clock, the id counter, the attribute and the log vary. -/
def restState (nid H : Nat) (a : Option Bool) (lg : List (Nat × Out)) : CSys :=
  { time := H, nextId := nid, timeouts := [], intervals := [],
    longPressTimeoutId := none, intervalId := none, isLongPress := false,
    isKeyDown := false, listeners := allListeners, aria := a, log := lg }

/-- Controller state right after an activation key-down at time 0 (with
`onStart` provided): like a pointer press but with `isKeyDown` set and
no attribute write. -/
def s1k (cfg : Config) : CSys :=
  { time := 0, nextId := 1, timeouts := [(0, cfg.delay)], intervals := [],
    longPressTimeoutId := some 0, intervalId := none, isLongPress := false,
    isKeyDown := true, listeners := allListeners, aria := none,
    log := [(0, Out.start)] }

/-- Full log of a pointer press started at 0 and released at `T < delay`
(with `onStart` / `onFinish` provided). -/
def shortLogP (T : Nat) : List (Nat × Out) :=
  zeroLog ++ [(T, Out.action), (T, Out.finish), (T, Out.ariaSet false)]

/-- Full log of a key press started at 0 and released at `T < delay`. -/
def shortLogK (T : Nat) : List (Nat × Out) :=
  [(0, Out.start), (T, Out.action), (T, Out.finish)]

/-- Full log of a pointer press started at 0, held past the delay, and
released at `T`, where `K` interval ticks fired. -/
def holdLog (cfg : Config) (K T : Nat) : List (Nat × Out) :=
  zeroLog ++ tickLog cfg K ++ [(T, Out.finish), (T, Out.ariaSet false)]

/-- Full log of a pointer press cancelled (pointer-leave/cancel) at
`t < delay`. -/
def cancelEarlyLog (t : Nat) : List (Nat × Out) :=
  zeroLog ++ [(t, Out.ariaSet false), (t, Out.cancel)]

/-- Full log of a pointer press cancelled at `T` after the delay elapsed
with `K` interval ticks fired. -/
def cancelLateLog (cfg : Config) (K T : Nat) : List (Nat × Out) :=
  zeroLog ++ tickLog cfg K ++ [(T, Out.finish), (T, Out.ariaSet false), (T, Out.cancel)]

/-- Concrete configuration used by witnesses: the repository's own test
configuration `{ delay: 500, interval: 100 }` with all callbacks given. -/
def cw : Config :=
  { interval := 100, delay := 500,
    hasOnStart := true, hasOnFinish := true, hasOnCancel := true }

/-- Does delivering `e` to state `s` start a new press?  True for
pointer-down, and for an activation key-down while `isKeyDown` is
unset. -/
def startsPressB (s : CSys) (e : Input) : Bool :=
  match e with
  | Input.pointerdown => true
  | Input.keydown k => isEnterOrSpace k && !s.isKeyDown
  | _ => false

/-- Both timer-handle variables are null. -/
def atRestB (s : CSys) : Bool :=
  s.longPressTimeoutId.isNone && s.intervalId.isNone

/-- Single-pointer input discipline for a schedule: no disposer call, and
no press-start is delivered while a press is still active (the DOM
sequences the spec is about — one pointer, keyboard re-triggering guarded
by key-up — satisfy this; multi-touch double pointer-downs do not). -/
def DisciplinedB (cfg : Config) (fuel : Nat) : CSys → List (Nat × Input) → Bool
  | _, [] => true
  | s, (t, e) :: rest =>
    decide (e ≠ Input.dispose) &&
    (match advanceTo cfg fuel s t with
     | none => true
     | some s' =>
       (!startsPressB s' e || atRestB s') && DisciplinedB cfg fuel (deliver cfg s' e) rest)

/-- The timer-handle invariant the controller maintains on disciplined
runs: the two handle variables determine the pending-timer queues.
While idle both handles are null and nothing is pending; while pressing
(delay not yet elapsed) only the delay timeout is pending; after the
delay elapsed, `longPressTimeoutId` still holds its stale handle, only
the repeat interval is pending, and `isLongPress` is set. -/
def Inv (s : CSys) : Prop :=
  (s.longPressTimeoutId = none →
    s.intervalId = none ∧ s.timeouts = [] ∧ s.intervals = [] ∧ s.isLongPress = false) ∧
  (∀ i, s.longPressTimeoutId = some i → s.intervalId = none →
    (∃ u, s.timeouts = [(i, u)]) ∧ s.intervals = [] ∧ s.isLongPress = false) ∧
  (∀ i j, s.longPressTimeoutId = some i → s.intervalId = some j →
    s.timeouts = [] ∧ (∃ u, s.intervals = [(j, u)]) ∧ s.isLongPress = true)

/-- One closure created by `handleLongPressDetection`: the element it
watches, its `timer` variable (which keeps a stale id after a clear or a
fire — `clearLongPressTimer` never nulls it), and whether its three
element listeners are still attached. -/
structure Watch where
  elem : Nat
  timerVar : Option Nat
  active : Bool
  deriving DecidableEq, Repr

/-- State of the Ambient Long-Press Detector: all watches ever created,
in creation order (a watch index identifies its closure), the pending
one-shot timers as `(id, due, watch index)`, and the log of dispatched
custom nagaoshi notification events as `(time, watch index)`. -/
structure ASys where
  time : Nat
  nextId : Nat
  watches : List Watch
  pending : List (Nat × Nat × Nat)
  log : List (Nat × Nat)
  deriving DecidableEq, Repr

/-- Detector state at module load: no watch yet. -/
def initA : ASys := { time := 0, nextId := 0, watches := [], pending := [], log := [] }

/-- `clearTimeout` for ambient timers. -/
def removePending : Nat → List (Nat × Nat × Nat) → List (Nat × Nat × Nat)
  | _, [] => []
  | i, p :: r => if p.1 = i then removePending i r else p :: removePending i r

/-- `startLongPressTimer` of watch `w`: `if (timer) clearTimeout(timer)`
then schedule a fresh timeout due `DEFAULT_DELAY` from now and store its
id in the `timer` variable. -/
def startLongPressTimer (w : Nat) (s : ASys) : ASys :=
  match s.watches[w]? with
  | none => s
  | some watch =>
    let p1 :=
      match watch.timerVar with
      | some tid => removePending tid s.pending
      | none => s.pending
    { s with
      pending := p1 ++ [(s.nextId, s.time + DEFAULT_DELAY, w)],
      watches := s.watches.set w { watch with timerVar := some s.nextId },
      nextId := s.nextId + 1 }

/-- `clearLongPressTimer` of watch `w`: `timer && clearTimeout(timer)` —
clears the pending timer but leaves the `timer` variable set. -/
def clearLongPressTimer (w : Nat) (s : ASys) : ASys :=
  match s.watches[w]? with
  | none => s
  | some watch =>
    match watch.timerVar with
    | some tid => { s with pending := removePending tid s.pending }
    | none => s

/-- Element-phase dispatch: run `f` on every watch of element `e` whose
listeners are still attached, in registration order. -/
def forWatchesOn (e : Nat) (f : Nat → ASys → ASys) (s : ASys) : ASys :=
  (List.range s.watches.length).foldl
    (fun acc w =>
      match acc.watches[w]? with
      | some watch => if watch.elem = e ∧ watch.active = true then f w acc else acc
      | none => acc) s

/-- Ambient inputs: a pointer-down on element `e` (with `hit` recording
whether `findInteractiveElement` matched the target), pointer-up and
pointer-leave on `e`. -/
inductive AInput where
  | pdown (e : Nat) (hit : Bool)
  | pup (e : Nat)
  | pleave (e : Nat)
  deriving DecidableEq, Repr

/-- Deliver one ambient input: the element-level listeners of existing
watches run first (target phase), then — for a pointer-down whose target
is interactive — the module's document-level listener calls
`handleLongPressDetection`, creating a fresh watch closure that starts
its timer immediately and attaches its three listeners. -/
def deliverA (s : ASys) (inp : AInput) : ASys :=
  match inp with
  | AInput.pdown e hit =>
    let s1 := forWatchesOn e startLongPressTimer s
    if hit then
      startLongPressTimer s1.watches.length
        { s1 with
          watches := s1.watches ++ [{ elem := e, timerVar := none, active := true }] }
    else s1
  | AInput.pup e => forWatchesOn e clearLongPressTimer s
  | AInput.pleave e => forWatchesOn e clearLongPressTimer s

/-- Fire one ambient timer: dispatch the custom nagaoshi event on the
watch's element and remove that watch's own three listeners. -/
def fireA (s : ASys) (p : Nat × Nat × Nat) : ASys :=
  let s1 := { s with time := p.2.1, pending := removePending p.1 s.pending,
                     log := s.log ++ [(p.2.1, p.2.2)] }
  match s1.watches[p.2.2]? with
  | none => s1
  | some watch => { s1 with watches := s1.watches.set p.2.2 { watch with active := false } }

/-- Earliest pending ambient timer due by `t` (due time, then id). -/
def findNextA (s : ASys) (t : Nat) : Option (Nat × Nat × Nat) :=
  s.pending.foldl
    (fun acc p =>
      if p.2.1 ≤ t then
        match acc with
        | none => some p
        | some q =>
          if p.2.1 < q.2.1 ∨ (p.2.1 = q.2.1 ∧ p.1 < q.1) then some p else some q
      else acc) none

/-- Advance the ambient clock, firing due timers in order. -/
def advanceA : Nat → ASys → Nat → Option ASys
  | fuel, s, t =>
    match findNextA s t with
    | none => some { s with time := t }
    | some p =>
      match fuel with
      | 0 => none
      | fuel' + 1 => advanceA fuel' (fireA s p) t

/-- Run a chronological ambient schedule. -/
def runEventsA (fuel : Nat) : ASys → List (Nat × AInput) → Option ASys
  | s, [] => some s
  | s, (t, e) :: rest =>
    match advanceA fuel s t with
    | none => none
    | some s' => runEventsA fuel (deliverA s' e) rest

/-- Run an ambient schedule from module load, then advance to `horizon`. -/
def runToA (fuel : Nat) (sched : List (Nat × AInput)) (horizon : Nat) : Option ASys :=
  match runEventsA fuel initA sched with
  | none => none
  | some s => advanceA fuel s horizon

/-- Pending ambient timers belonging to watch `w`. -/
def pendingFor (s : ASys) (w : Nat) : List (Nat × Nat × Nat) :=
  s.pending.filter fun p => p.2.2 == w

/-- Number of pending ambient timers watching element `e`. -/
def pendingForElem (s : ASys) (e : Nat) : Nat :=
  (s.pending.filter fun p =>
    match s.watches[p.2.2]? with
    | some w => w.elem == e
    | none => false).length

/-- Number of nagaoshi notifications watch `w` has dispatched. -/
def firedCount (s : ASys) (w : Nat) : Nat :=
  (s.log.filter fun q => q.2 == w).length

/-- The invariant of the Ambient Detector: pending-timer ids are fresh
and distinct; every pending timer belongs to a live (listener-attached)
watch whose `timer` variable holds exactly that id; `timer` variables
are fresh and distinct across watches; logged notifications name real
watches; and a watch that has notified is deactivated and notifies no
more. -/
def AInv (s : ASys) : Prop :=
  (∀ p ∈ s.pending, p.1 < s.nextId ∧ p.2.2 < s.watches.length) ∧
  s.pending.Pairwise (fun p q => p.1 ≠ q.1) ∧
  (∀ p ∈ s.pending, ∀ watch : Watch, s.watches[p.2.2]? = some watch →
    watch.timerVar = some p.1 ∧ watch.active = true) ∧
  (∀ (w : Nat) (watch : Watch) (t : Nat),
    s.watches[w]? = some watch → watch.timerVar = some t → t < s.nextId) ∧
  (∀ (w1 w2 : Nat) (watch1 watch2 : Watch) (t : Nat), w1 ≠ w2 →
    s.watches[w1]? = some watch1 → s.watches[w2]? = some watch2 →
    watch1.timerVar = some t → watch2.timerVar ≠ some t) ∧
  (∀ q ∈ s.log, q.2 < s.watches.length) ∧
  (∀ w : Nat, firedCount s w ≤ 1) ∧
  (∀ (w : Nat) (watch : Watch),
    s.watches[w]? = some watch → watch.active = true → firedCount s w = 0)

/-- Detector state after a single pointer-down on interactive element 5
at time 0 (clock still at 0): one live watch, its timer pending. -/
def c7s : ASys :=
  { time := 0, nextId := 1,
    watches := [{ elem := 5, timerVar := some 0, active := true }],
    pending := [(0, DEFAULT_DELAY, 0)], log := [] }

/-- Detector state after that watch's timer fired at 1000: notification
logged, watch deactivated, stale `timer` variable kept. -/
def c8s : ASys :=
  { time := DEFAULT_DELAY, nextId := 1,
    watches := [{ elem := 5, timerVar := some 0, active := false }],
    pending := [], log := [(DEFAULT_DELAY, 0)] }

lemma countOut_append (o : Out) (l1 l2 : List (Nat × Out)) :
    countOut o (l1 ++ l2) = countOut o l1 + countOut o l2 := by
  induction l1 with
  | nil => simp [countOut]
  | cons p r ih => simp [countOut, ih]; omega

lemma lt_div_succ_mul (a p : Nat) (hp : 0 < p) : a < (a / p + 1) * p := by
  have h1 : a / p * p + a % p = a := Nat.div_add_mod' a p
  have h2 : a % p < p := Nat.mod_lt a hp
  have h3 : a < a / p * p + p := by omega
  calc a < a / p * p + p := h3
    _ = (a / p + 1) * p := by ring

lemma period_pos (cfg : Config) : 0 < period cfg :=
  Nat.lt_of_lt_of_le Nat.zero_lt_one (Nat.le_max_left 1 cfg.interval)

lemma findNext_nil (s : CSys) (t : Nat) (h1 : s.timeouts = []) (h2 : s.intervals = []) :
    findNext s t = none := by
  simp [findNext, candidates, h1, h2]

lemma advanceTo_nil (cfg : Config) (fuel : Nat) (s : CSys) (t : Nat)
    (h1 : s.timeouts = []) (h2 : s.intervals = []) :
    advanceTo cfg fuel s t = some { s with time := t } := by
  rw [advanceTo, findNext_nil s t h1 h2]

lemma findNext_single_to_late (s : CSys) (t i u : Nat)
    (h1 : s.timeouts = [(i, u)]) (h2 : s.intervals = []) (h : t < u) :
    findNext s t = none := by
  have hu : ¬ u ≤ t := by omega
  simp [findNext, candidates, h1, h2, hu]

lemma advanceTo_single_to_late (cfg : Config) (fuel : Nat) (s : CSys) (t i u : Nat)
    (h1 : s.timeouts = [(i, u)]) (h2 : s.intervals = []) (h : t < u) :
    advanceTo cfg fuel s t = some { s with time := t } := by
  rw [advanceTo, findNext_single_to_late s t i u h1 h2 h]

lemma findNext_single_to_due (s : CSys) (t i u : Nat)
    (h1 : s.timeouts = [(i, u)]) (h2 : s.intervals = []) (h : u ≤ t) :
    findNext s t = some (TRef.to i u) := by
  simp [findNext, candidates, h1, h2, h, pick]

lemma advanceTo_step (cfg : Config) (fuel : Nat) (s : CSys) (t : Nat) (r : TRef)
    (h : findNext s t = some r) :
    advanceTo cfg (fuel + 1) s t = advanceTo cfg fuel (fireRef cfg r s) t := by
  rw [advanceTo, h]

lemma deliver_pdown_init (cfg : Config) (hS : cfg.hasOnStart = true) :
    deliver cfg initC Input.pointerdown = s1c cfg := by
  simp [deliver, listenerOf, handle, startLongPress, logIf, setAria, initC, s1c, hS,
    allListeners, zeroLog]

lemma tickLog_succ (cfg : Config) (k : Nat) :
    tickLog cfg (k + 1) =
      tickLog cfg k ++ [(cfg.delay + (k + 1) * period cfg, Out.action)] := by
  simp [tickLog, List.range_succ]

lemma countOut_tickLog (o : Out) (cfg : Config) (k : Nat) :
    countOut o (tickLog cfg k) = if o = Out.action then k else 0 := by
  induction k with
  | zero => simp [tickLog, countOut]
  | succ k ih =>
    rw [tickLog_succ, countOut_append, ih]
    by_cases h : o = Out.action
    · simp [countOut, h]
    · simp [countOut, h, Ne.symm h]

lemma fire_delay (cfg : Config) :
    fireRef cfg (TRef.to 0 cfg.delay) (s1c cfg) = midState cfg 0 := by
  simp [fireRef, s1c, midState, removeTimer, tickLog]

lemma fire_tick (cfg : Config) (k : Nat) :
    fireRef cfg (TRef.iv 1 (cfg.delay + (k + 1) * period cfg)) (midState cfg k) =
      midState cfg (k + 1) := by
  have harith : cfg.delay + (k + 1) * period cfg + period cfg =
      cfg.delay + (k + 1 + 1) * period cfg := by ring
  simp [fireRef, midState, setDue, tickLog_succ, harith]

lemma findNext_mid_due (cfg : Config) (k T : Nat)
    (h : cfg.delay + (k + 1) * period cfg ≤ T) :
    findNext (midState cfg k) T =
      some (TRef.iv 1 (cfg.delay + (k + 1) * period cfg)) := by
  simp [findNext, candidates, midState, h, pick]

lemma findNext_mid_late (cfg : Config) (k T : Nat)
    (h : T < cfg.delay + (k + 1) * period cfg) :
    findNext (midState cfg k) T = none := by
  have hn : ¬ cfg.delay + (k + 1) * period cfg ≤ T := by omega
  simp [findNext, candidates, midState, hn]

lemma advance_mid (cfg : Config) (K T : Nat)
    (hle : cfg.delay + K * period cfg ≤ T)
    (hlt : T < cfg.delay + (K + 1) * period cfg) :
    ∀ n k fuel, K - k = n → k ≤ K → n ≤ fuel →
      advanceTo cfg fuel (midState cfg k) T =
        some { midState cfg K with time := T } := by
  intro n
  induction n with
  | zero =>
    intro k fuel hn hk _
    have hkK : k = K := by omega
    subst hkK
    rw [advanceTo, findNext_mid_late cfg k T hlt]
  | succ n ih =>
    intro k fuel hn hk hf
    have hkK : k < K := by omega
    have hdue : cfg.delay + (k + 1) * period cfg ≤ T := by
      have hmul : (k + 1) * period cfg ≤ K * period cfg :=
        Nat.mul_le_mul_right _ (by omega)
      omega
    obtain ⟨fuel', rfl⟩ : ∃ f, fuel = f + 1 := ⟨fuel - 1, by omega⟩
    rw [advanceTo_step cfg fuel' _ T _ (findNext_mid_due cfg k T hdue), fire_tick]
    exact ih (k + 1) fuel' (by omega) (by omega) (by omega)

/-- Advancing the clock from a fresh press at time 0 to any `T ≥ delay`
fires the delay timeout at `delay` and exactly `(T - delay) / interval`
interval ticks, at `delay + interval, …`. -/
lemma advance_press (cfg : Config) (T fuel : Nat) (hd : cfg.delay ≤ T)
    (hfuel : (T - cfg.delay) / period cfg + 1 ≤ fuel) :
    advanceTo cfg fuel (s1c cfg) T =
      some { midState cfg ((T - cfg.delay) / period cfg) with time := T } := by
  have hp : 0 < period cfg := period_pos cfg
  set K := (T - cfg.delay) / period cfg with hK
  have hle : cfg.delay + K * period cfg ≤ T :=
    calc cfg.delay + K * period cfg
        ≤ cfg.delay + (T - cfg.delay) :=
          Nat.add_le_add_left (Nat.div_mul_le_self (T - cfg.delay) (period cfg)) _
      _ = T := Nat.add_sub_cancel' hd
  have hlt : T < cfg.delay + (K + 1) * period cfg :=
    calc T = cfg.delay + (T - cfg.delay) := (Nat.add_sub_cancel' hd).symm
      _ < cfg.delay + (K + 1) * period cfg :=
          Nat.add_lt_add_left (lt_div_succ_mul (T - cfg.delay) (period cfg) hp) _
  obtain ⟨fuel', rfl⟩ : ∃ f, fuel = f + 1 :=
    ⟨fuel - 1, (Nat.succ_pred_eq_of_pos (Nat.lt_of_lt_of_le (Nat.succ_pos K) hfuel)).symm⟩
  have hfn : findNext (s1c cfg) T = some (TRef.to 0 cfg.delay) :=
    findNext_single_to_due (s1c cfg) T 0 cfg.delay (by simp [s1c]) (by simp [s1c]) hd
  rw [advanceTo_step cfg fuel' _ T _ hfn, fire_delay]
  exact advance_mid cfg K T hle hlt K 0 fuel' (Nat.sub_zero K) (Nat.zero_le K)
    (Nat.succ_le_succ_iff.mp hfuel)

lemma advance_rest (cfg : Config) (fuel nid H H' : Nat) (a : Option Bool)
    (lg : List (Nat × Out)) :
    advanceTo cfg fuel (restState nid H a lg) H' = some (restState nid H' a lg) := by
  rw [advanceTo_nil cfg fuel _ H' rfl rfl]
  simp [restState]

lemma advance_init (cfg : Config) (fuel : Nat) :
    advanceTo cfg fuel initC 0 = some initC := by
  rw [advanceTo_nil cfg fuel initC 0 rfl rfl]
  simp [initC]

/-- Releasing (pointer-up) during the long-press phase: no extra action,
one `onFinish`, `aria-pressed` unset, both timers cleared. -/
lemma deliver_up_mid (cfg : Config) (K T : Nat) (hF : cfg.hasOnFinish = true) :
    deliver cfg { midState cfg K with time := T } Input.pointerup =
      restState 2 T (some false)
        (zeroLog ++ tickLog cfg K ++ [(T, Out.finish), (T, Out.ariaSet false)]) := by
  simp [deliver, listenerOf, handle, handleShortPress, stopLongPress, logIf, setAria,
    midState, restState, removeTimer, hF, allListeners]

/-- Pointer-leave (or pointer-cancel) during the long-press phase:
`onFinish` then `onCancel`, both timers cleared, no action. -/
lemma deliver_leave_mid (cfg : Config) (K T : Nat) (hF : cfg.hasOnFinish = true)
    (hC : cfg.hasOnCancel = true) :
    deliver cfg { midState cfg K with time := T } Input.pointerleave =
      restState 2 T (some false)
        (zeroLog ++ tickLog cfg K ++
          [(T, Out.finish), (T, Out.ariaSet false), (T, Out.cancel)]) := by
  simp [deliver, listenerOf, handle, stopLongPress, logIf, setAria,
    midState, restState, removeTimer, hF, hC, allListeners]

/-- Releasing before the delay elapsed: single action plus `onFinish`. -/
lemma deliver_up_early (cfg : Config) (T : Nat) (hF : cfg.hasOnFinish = true) :
    deliver cfg { s1c cfg with time := T } Input.pointerup =
      restState 1 T (some false)
        (zeroLog ++ [(T, Out.action), (T, Out.finish), (T, Out.ariaSet false)]) := by
  simp [deliver, listenerOf, handle, handleShortPress, stopLongPress, logIf, pushLog,
    setAria, s1c, restState, removeTimer, hF, allListeners]

/-- Pointer-leave (or pointer-cancel) before the delay elapsed: no
action, no `onFinish`, one `onCancel`. -/
lemma deliver_leave_early (cfg : Config) (T : Nat) (hC : cfg.hasOnCancel = true) :
    deliver cfg { s1c cfg with time := T } Input.pointerleave =
      restState 1 T (some false)
        (zeroLog ++ [(T, Out.ariaSet false), (T, Out.cancel)]) := by
  simp [deliver, listenerOf, handle, stopLongPress, logIf, setAria,
    s1c, restState, removeTimer, hC, allListeners]

lemma deliver_kdown_init (cfg : Config) (k : Key) (hS : cfg.hasOnStart = true)
    (hk : isEnterOrSpace k = true) :
    deliver cfg initC (Input.keydown k) = s1k cfg := by
  simp [deliver, listenerOf, handle, handleKeyAction, hk, startLongPress, logIf,
    initC, s1k, hS, allListeners]

lemma deliver_kup_early (cfg : Config) (T : Nat) (k : Key)
    (hF : cfg.hasOnFinish = true) (hk : isEnterOrSpace k = true) :
    deliver cfg { s1k cfg with time := T } (Input.keyup k) =
      restState 1 T none [(0, Out.start), (T, Out.action), (T, Out.finish)] := by
  simp [deliver, listenerOf, handle, handleKeyAction, hk, handleShortPress,
    stopLongPress, logIf, pushLog, s1k, restState, removeTimer, hF, allListeners]

/-- Pointer-up delivered to an idle controller still runs the
short-press path: one action, one `onFinish`, attribute unset. -/
lemma deliver_up_init (cfg : Config) (t : Nat) (hF : cfg.hasOnFinish = true) :
    deliver cfg { initC with time := t } Input.pointerup =
      restState 0 t (some false)
        [(t, Out.action), (t, Out.finish), (t, Out.ariaSet false)] := by
  simp [deliver, listenerOf, handle, handleShortPress, stopLongPress, logIf, pushLog,
    setAria, initC, restState, removeTimer, hF, allListeners]

lemma deliver_kup_init (cfg : Config) (t : Nat) (k : Key)
    (hF : cfg.hasOnFinish = true) (hk : isEnterOrSpace k = true) :
    deliver cfg { initC with time := t } (Input.keyup k) =
      restState 0 t none [(t, Out.action), (t, Out.finish)] := by
  simp [deliver, listenerOf, handle, handleKeyAction, hk, handleShortPress,
    stopLongPress, logIf, pushLog, initC, restState, removeTimer, hF, allListeners]

/-- C2, amended: for every configuration with delay `d` and interval
`i ≥ 1`, a pointer press started at time 0 and held until release at
time `T ≥ d` fires the action exactly once at each of the times
`d + i, d + 2i, …` up to `T` (the first firing is one interval after the
delay elapses; nothing fires at time `d` itself), and `onFinish` fires
exactly once, at release, never during the hold. -/
theorem claim2_long_hold (cfg : Config) (T H fuel : Nat)
    (hS : cfg.hasOnStart = true) (hF : cfg.hasOnFinish = true)
    (hd : cfg.delay ≤ T) (hTH : T ≤ H)
    (hfuel : (T - cfg.delay) / period cfg + 1 ≤ fuel) :
    runTo cfg fuel [(0, Input.pointerdown), (T, Input.pointerup)] H =
      some (restState 2 H (some false)
        (holdLog cfg ((T - cfg.delay) / period cfg) T)) ∧
    countOut Out.action (holdLog cfg ((T - cfg.delay) / period cfg) T) =
      (T - cfg.delay) / period cfg ∧
    countOut Out.finish (holdLog cfg ((T - cfg.delay) / period cfg) T) = 1 := by
  refine ⟨?_, ?_, ?_⟩
  · have hre : runEvents cfg fuel initC [(0, Input.pointerdown), (T, Input.pointerup)] =
        some (restState 2 T (some false) (holdLog cfg ((T - cfg.delay) / period cfg) T)) := by
      simp only [runEvents, advance_init cfg fuel, deliver_pdown_init cfg hS,
        advance_press cfg T fuel hd hfuel,
        deliver_up_mid cfg ((T - cfg.delay) / period cfg) T hF, holdLog]
    simp only [runTo, hre, advance_rest]
  · simp [holdLog, zeroLog, countOut_append, countOut_tickLog, countOut]
  · simp [holdLog, zeroLog, countOut_append, countOut_tickLog, countOut]

/-- Witness for C2: the repo's own test configuration (delay 500,
interval 100), held to `T = 700`: ticks at 600 and 700, one `onFinish`
at release. -/
theorem claim2_long_hold_witness :
    runTo cw 10 [(0, Input.pointerdown), (700, Input.pointerup)] 800 =
      some (restState 2 800 (some false)
        (holdLog cw ((700 - cw.delay) / period cw) 700)) ∧
    countOut Out.action (holdLog cw ((700 - cw.delay) / period cw) 700) =
      (700 - cw.delay) / period cw ∧
    countOut Out.finish (holdLog cw ((700 - cw.delay) / period cw) 700) = 1 :=
  claim2_long_hold cw 700 800 10 rfl rfl (by decide) (by decide) (by decide)

/-- Counterexample to C2 as stated: with delay 500 and interval 100, a
press held from time 0 has produced zero action firings by time 599,
although the claim requires a firing at time `d = 500`. -/
theorem claim2_counterexample :
    (runTo cw 16 [(0, Input.pointerdown)] 599).map
      (fun s => countOut Out.action s.log) = some 0 := by decide

/-- C3: a press started at 0 (pointer-down, or Enter/Space key-down) and
released at `T` strictly before the delay elapses invokes the action
exactly once and `onFinish` exactly once at release, and `onStart`
exactly once at press-start. -/
theorem claim3_short_press (cfg : Config) (T H fuel : Nat)
    (hS : cfg.hasOnStart = true) (hF : cfg.hasOnFinish = true)
    (hT : T < cfg.delay) (hTH : T ≤ H) :
    (runTo cfg fuel [(0, Input.pointerdown), (T, Input.pointerup)] H =
       some (restState 1 H (some false) (shortLogP T))) ∧
    (∀ k, isEnterOrSpace k = true →
       runTo cfg fuel [(0, Input.keydown k), (T, Input.keyup k)] H =
         some (restState 1 H none (shortLogK T))) ∧
    countOut Out.action (shortLogP T) = 1 ∧
    countOut Out.finish (shortLogP T) = 1 ∧
    countOut Out.start (shortLogP T) = 1 ∧
    countOut Out.action (shortLogK T) = 1 ∧
    countOut Out.finish (shortLogK T) = 1 ∧
    countOut Out.start (shortLogK T) = 1 := by
  refine ⟨?_, ?_, ?_, ?_, ?_, ?_, ?_, ?_⟩
  · have hre : runEvents cfg fuel initC [(0, Input.pointerdown), (T, Input.pointerup)] =
        some (restState 1 T (some false) (shortLogP T)) := by
      simp only [runEvents, advance_init cfg fuel, deliver_pdown_init cfg hS,
        advanceTo_single_to_late cfg fuel (s1c cfg) T 0 cfg.delay rfl rfl hT,
        deliver_up_early cfg T hF, shortLogP]
    simp only [runTo, hre, advance_rest]
  · intro k hk
    have hre : runEvents cfg fuel initC [(0, Input.keydown k), (T, Input.keyup k)] =
        some (restState 1 T none (shortLogK T)) := by
      simp only [runEvents, advance_init cfg fuel, deliver_kdown_init cfg k hS hk,
        advanceTo_single_to_late cfg fuel (s1k cfg) T 0 cfg.delay rfl rfl hT,
        deliver_kup_early cfg T k hF hk, shortLogK]
    simp only [runTo, hre, advance_rest]
  all_goals simp [shortLogP, shortLogK, zeroLog, countOut]

/-- Witness for C3: delay 500, release at 300. -/
theorem claim3_short_press_witness :
    (runTo cw 5 [(0, Input.pointerdown), (300, Input.pointerup)] 300 =
       some (restState 1 300 (some false) (shortLogP 300))) ∧
    (∀ k, isEnterOrSpace k = true →
       runTo cw 5 [(0, Input.keydown k), (300, Input.keyup k)] 300 =
         some (restState 1 300 none (shortLogK 300))) ∧
    countOut Out.action (shortLogP 300) = 1 ∧
    countOut Out.finish (shortLogP 300) = 1 ∧
    countOut Out.start (shortLogP 300) = 1 ∧
    countOut Out.action (shortLogK 300) = 1 ∧
    countOut Out.finish (shortLogK 300) = 1 ∧
    countOut Out.start (shortLogK 300) = 1 :=
  claim3_short_press cw 300 300 5 rfl rfl (by decide) (by decide)

/-- C4: a pointer-leave (or the identical pointer-cancel handler) during
a press clears the pending timer, fires `onFinish` exactly when the
press had matured into a long press, fires `onCancel` exactly once, and
never invokes the action at cancellation. -/
theorem claim4_cancel (cfg : Config) (fuel : Nat)
    (hS : cfg.hasOnStart = true) (hF : cfg.hasOnFinish = true)
    (hC : cfg.hasOnCancel = true) :
    (∀ t H, t < cfg.delay →
       runTo cfg fuel [(0, Input.pointerdown), (t, Input.pointerleave)] H =
         some (restState 1 H (some false) (cancelEarlyLog t))) ∧
    (∀ T H, cfg.delay ≤ T → (T - cfg.delay) / period cfg + 1 ≤ fuel →
       runTo cfg fuel [(0, Input.pointerdown), (T, Input.pointerleave)] H =
         some (restState 2 H (some false)
           (cancelLateLog cfg ((T - cfg.delay) / period cfg) T))) ∧
    (∀ s, handle cfg s Input.pointercancel = handle cfg s Input.pointerleave) ∧
    (∀ t, countOut Out.action (cancelEarlyLog t) = 0 ∧
          countOut Out.finish (cancelEarlyLog t) = 0 ∧
          countOut Out.cancel (cancelEarlyLog t) = 1) ∧
    (∀ K T, countOut Out.finish (cancelLateLog cfg K T) = 1 ∧
            countOut Out.cancel (cancelLateLog cfg K T) = 1 ∧
            countOut Out.action (cancelLateLog cfg K T) = K) := by
  refine ⟨?_, ?_, fun s => rfl, ?_, ?_⟩
  · intro t H ht
    have hre : runEvents cfg fuel initC [(0, Input.pointerdown), (t, Input.pointerleave)] =
        some (restState 1 t (some false) (cancelEarlyLog t)) := by
      simp only [runEvents, advance_init cfg fuel, deliver_pdown_init cfg hS,
        advanceTo_single_to_late cfg fuel (s1c cfg) t 0 cfg.delay rfl rfl ht,
        deliver_leave_early cfg t hC, cancelEarlyLog]
    simp only [runTo, hre, advance_rest]
  · intro T H hd hfuel
    have hre : runEvents cfg fuel initC [(0, Input.pointerdown), (T, Input.pointerleave)] =
        some (restState 2 T (some false)
          (cancelLateLog cfg ((T - cfg.delay) / period cfg) T)) := by
      simp only [runEvents, advance_init cfg fuel, deliver_pdown_init cfg hS,
        advance_press cfg T fuel hd hfuel,
        deliver_leave_mid cfg ((T - cfg.delay) / period cfg) T hF hC, cancelLateLog]
    simp only [runTo, hre, advance_rest]
  · intro t
    refine ⟨?_, ?_, ?_⟩ <;> simp [cancelEarlyLog, zeroLog, countOut]
  · intro K T
    refine ⟨?_, ?_, ?_⟩ <;>
      simp [cancelLateLog, zeroLog, countOut_append, countOut_tickLog, countOut]

/-- Witness for C4: delay 500, cancellation both at 300 (early) and via
the late branch at 700. -/
theorem claim4_cancel_witness :
    ((∀ t H, t < cw.delay →
       runTo cw 10 [(0, Input.pointerdown), (t, Input.pointerleave)] H =
         some (restState 1 H (some false) (cancelEarlyLog t))) ∧
    (∀ T H, cw.delay ≤ T → (T - cw.delay) / period cw + 1 ≤ 10 →
       runTo cw 10 [(0, Input.pointerdown), (T, Input.pointerleave)] H =
         some (restState 2 H (some false)
           (cancelLateLog cw ((T - cw.delay) / period cw) T))) ∧
    (∀ s, handle cw s Input.pointercancel = handle cw s Input.pointerleave) ∧
    (∀ t, countOut Out.action (cancelEarlyLog t) = 0 ∧
          countOut Out.finish (cancelEarlyLog t) = 0 ∧
          countOut Out.cancel (cancelEarlyLog t) = 1) ∧
    (∀ K T, countOut Out.finish (cancelLateLog cw K T) = 1 ∧
            countOut Out.cancel (cancelLateLog cw K T) = 1 ∧
            countOut Out.action (cancelLateLog cw K T) = K)) ∧
    0 < cw.delay :=
  ⟨claim4_cancel cw 10 rfl rfl rfl, by decide⟩

/-- C10: dispatching a pointer-up (or Enter/Space key-up) on an idle
controller that never saw a press-start still invokes the action exactly
once and `onFinish` exactly once. -/
theorem claim10_idle_release (cfg : Config) (t H fuel : Nat)
    (hF : cfg.hasOnFinish = true) (htH : t ≤ H) :
    (runTo cfg fuel [(t, Input.pointerup)] H =
       some (restState 0 H (some false)
         [(t, Out.action), (t, Out.finish), (t, Out.ariaSet false)])) ∧
    (∀ k, isEnterOrSpace k = true →
       runTo cfg fuel [(t, Input.keyup k)] H =
         some (restState 0 H none [(t, Out.action), (t, Out.finish)])) ∧
    countOut Out.action [(t, Out.action), (t, Out.finish), (t, Out.ariaSet false)] = 1 ∧
    countOut Out.finish [(t, Out.action), (t, Out.finish), (t, Out.ariaSet false)] = 1 ∧
    countOut Out.action [(t, Out.action), (t, Out.finish)] = 1 ∧
    countOut Out.finish [(t, Out.action), (t, Out.finish)] = 1 := by
  refine ⟨?_, ?_, ?_, ?_, ?_, ?_⟩
  · have hre : runEvents cfg fuel initC [(t, Input.pointerup)] =
        some (restState 0 t (some false)
          [(t, Out.action), (t, Out.finish), (t, Out.ariaSet false)]) := by
      simp only [runEvents, advanceTo_nil cfg fuel initC t rfl rfl,
        deliver_up_init cfg t hF]
    simp only [runTo, hre, advance_rest]
  · intro k hk
    have hre : runEvents cfg fuel initC [(t, Input.keyup k)] =
        some (restState 0 t none [(t, Out.action), (t, Out.finish)]) := by
      simp only [runEvents, advanceTo_nil cfg fuel initC t rfl rfl,
        deliver_kup_init cfg t k hF hk]
    simp only [runTo, hre, advance_rest]
  all_goals simp [countOut]

/-- Witness for C10: pointer-up and Enter key-up at time 5 on a fresh
controller. -/
theorem claim10_idle_release_witness :
    (runTo cw 3 [(5, Input.pointerup)] 10 =
       some (restState 0 10 (some false)
         [(5, Out.action), (5, Out.finish), (5, Out.ariaSet false)])) ∧
    (∀ k, isEnterOrSpace k = true →
       runTo cw 3 [(5, Input.keyup k)] 10 =
         some (restState 0 10 none [(5, Out.action), (5, Out.finish)])) ∧
    countOut Out.action [(5, Out.action), (5, Out.finish), (5, Out.ariaSet false)] = 1 ∧
    countOut Out.finish [(5, Out.action), (5, Out.finish), (5, Out.ariaSet false)] = 1 ∧
    countOut Out.action [(5, Out.action), (5, Out.finish)] = 1 ∧
    countOut Out.finish [(5, Out.action), (5, Out.finish)] = 1 :=
  claim10_idle_release cw 5 10 3 rfl (by decide)

lemma pick_eq (acc : Option TRef) (x r : TRef) (h : pick acc x = some r) :
    acc = some r ∨ r = x := by
  rcases acc with _ | a
  · simp only [pick, Option.some.injEq] at h
    exact Or.inr h.symm
  · by_cases hb : better x a
    · simp only [pick, hb, if_true, Option.some.injEq] at h
      exact Or.inr h.symm
    · rw [pick, if_neg hb] at h
      exact Or.inl h

lemma foldl_pick_mem (l : List TRef) : ∀ (acc : Option TRef) (r : TRef),
    l.foldl pick acc = some r → acc = some r ∨ r ∈ l := by
  induction l with
  | nil => intro acc r h; exact Or.inl h
  | cons x xs ih =>
    intro acc r h
    rcases ih (pick acc x) r h with h' | h'
    · rcases pick_eq acc x r h' with h2 | h2
      · exact Or.inl h2
      · exact Or.inr (by simp [h2])
    · exact Or.inr (List.mem_cons_of_mem x h')

lemma findNext_mem (s : CSys) (t : Nat) (r : TRef) (h : findNext s t = some r) :
    r ∈ candidates s t := by
  rcases foldl_pick_mem (candidates s t) none r h with h' | h'
  · exact absurd h' (by simp)
  · exact h'

lemma removeTimer_self (i u : Nat) : removeTimer i [(i, u)] = [] := by
  simp [removeTimer]

lemma setDue_self (i u d : Nat) : setDue i d [(i, u)] = [(i, d)] := by
  simp [setDue]

/-- Firing any timer the scheduler can actually pick preserves the
timer-handle invariant. -/
lemma Inv_fireRef (cfg : Config) (s : CSys) (t : Nat) (r : TRef) (hInv : Inv s)
    (h : findNext s t = some r) : Inv (fireRef cfg r s) := by
  obtain ⟨h1, h2, h3⟩ := hInv
  have hr := findNext_mem s t r h
  rcases hLp : s.longPressTimeoutId with _ | i
  · obtain ⟨_, hto, hivs, _⟩ := h1 hLp
    rw [candidates, hto, hivs] at hr
    simp at hr
  · rcases hIv : s.intervalId with _ | j
    · obtain ⟨⟨u, hto⟩, hivs, _⟩ := h2 i hLp hIv
      rw [candidates, hto, hivs] at hr
      by_cases hu : u ≤ t
      · simp only [hu, if_true, List.filterMap_cons, List.filterMap_nil, List.append_nil,
          List.mem_singleton] at hr
        subst hr
        refine ⟨?_, ?_, ?_⟩
        · intro hc
          rw [show (fireRef cfg (TRef.to i u) s).longPressTimeoutId =
                s.longPressTimeoutId from rfl, hLp] at hc
          cases hc
        · intro i' _ hciv
          rw [show (fireRef cfg (TRef.to i u) s).intervalId = some s.nextId from rfl] at hciv
          cases hciv
        · intro i' j' _ hcj
          rw [show (fireRef cfg (TRef.to i u) s).intervalId = some s.nextId from rfl] at hcj
          refine ⟨?_, ⟨u + period cfg, ?_⟩, rfl⟩
          · show removeTimer i s.timeouts = []
            rw [hto]
            exact removeTimer_self i u
          · show s.intervals ++ [(s.nextId, u + period cfg)] = [(j', u + period cfg)]
            rw [hivs, Option.some.inj hcj]
            rfl
      · simp [hu] at hr
    · obtain ⟨hto, ⟨u, hivs⟩, hlpr⟩ := h3 i j hLp hIv
      rw [candidates, hto, hivs] at hr
      by_cases hu : u ≤ t
      · simp only [hu, if_true, List.filterMap_nil, List.filterMap_cons, List.nil_append,
          List.mem_singleton] at hr
        subst hr
        refine ⟨?_, ?_, ?_⟩
        · intro hc
          rw [show (fireRef cfg (TRef.iv j u) s).longPressTimeoutId =
                s.longPressTimeoutId from rfl, hLp] at hc
          cases hc
        · intro i' _ hciv
          rw [show (fireRef cfg (TRef.iv j u) s).intervalId = s.intervalId from rfl,
            hIv] at hciv
          cases hciv
        · intro i' j' _ hcj
          rw [show (fireRef cfg (TRef.iv j u) s).intervalId = s.intervalId from rfl,
            hIv] at hcj
          refine ⟨hto, ⟨u + period cfg, ?_⟩, hlpr⟩
          show setDue j (u + period cfg) s.intervals = [(j', u + period cfg)]
          rw [hivs, ← Option.some.inj hcj]
          exact setDue_self j u (u + period cfg)
      · simp [hu] at hr

/-- Advancing the clock preserves the timer-handle invariant. -/
lemma Inv_advanceTo (cfg : Config) :
    ∀ (fuel : Nat) (s : CSys) (t : Nat) (s' : CSys), Inv s →
      advanceTo cfg fuel s t = some s' → Inv s' := by
  intro fuel
  induction fuel with
  | zero =>
    intro s t s' hInv h
    rw [advanceTo] at h
    rcases hfn : findNext s t with _ | r
    · rw [hfn] at h
      simp only [Option.some.injEq] at h
      subst h
      exact hInv
    · rw [hfn] at h
      exact absurd h (by simp)
  | succ fuel ih =>
    intro s t s' hInv h
    rw [advanceTo] at h
    rcases hfn : findNext s t with _ | r
    · rw [hfn] at h
      simp only [Option.some.injEq] at h
      subst h
      exact hInv
    · rw [hfn] at h
      exact ih (fireRef cfg r s) t s' (Inv_fireRef cfg s t r hInv hfn) h

@[simp] lemma logIf_time (b : Bool) (o : Out) (s : CSys) : (logIf b o s).time = s.time := by
  unfold logIf; split <;> rfl

@[simp] lemma logIf_nextId (b : Bool) (o : Out) (s : CSys) : (logIf b o s).nextId = s.nextId := by
  unfold logIf; split <;> rfl

@[simp] lemma logIf_timeouts (b : Bool) (o : Out) (s : CSys) :
    (logIf b o s).timeouts = s.timeouts := by
  unfold logIf; split <;> rfl

@[simp] lemma logIf_intervals (b : Bool) (o : Out) (s : CSys) :
    (logIf b o s).intervals = s.intervals := by
  unfold logIf; split <;> rfl

@[simp] lemma logIf_longPressTimeoutId (b : Bool) (o : Out) (s : CSys) :
    (logIf b o s).longPressTimeoutId = s.longPressTimeoutId := by
  unfold logIf; split <;> rfl

@[simp] lemma logIf_intervalId (b : Bool) (o : Out) (s : CSys) :
    (logIf b o s).intervalId = s.intervalId := by
  unfold logIf; split <;> rfl

@[simp] lemma logIf_isLongPress (b : Bool) (o : Out) (s : CSys) :
    (logIf b o s).isLongPress = s.isLongPress := by
  unfold logIf; split <;> rfl

@[simp] lemma logIf_isKeyDown (b : Bool) (o : Out) (s : CSys) :
    (logIf b o s).isKeyDown = s.isKeyDown := by
  unfold logIf; split <;> rfl

@[simp] lemma logIf_listeners (b : Bool) (o : Out) (s : CSys) :
    (logIf b o s).listeners = s.listeners := by
  unfold logIf; split <;> rfl

@[simp] lemma logIf_aria (b : Bool) (o : Out) (s : CSys) : (logIf b o s).aria = s.aria := by
  unfold logIf; split <;> rfl

lemma Inv_of_rest (s : CSys)
    (h : s.longPressTimeoutId = none ∧ s.intervalId = none ∧
      s.timeouts = [] ∧ s.intervals = [] ∧ s.isLongPress = false) : Inv s := by
  obtain ⟨hLp, hIv, hto, hivs, hlp⟩ := h
  refine ⟨fun _ => ⟨hIv, hto, hivs, hlp⟩, ?_, ?_⟩
  · intro i hc
    rw [hLp] at hc
    cases hc
  · intro i j hc _
    rw [hLp] at hc
    cases hc

lemma Inv_congr (s s' : CSys)
    (hlp : s'.longPressTimeoutId = s.longPressTimeoutId)
    (hiv : s'.intervalId = s.intervalId)
    (hto : s'.timeouts = s.timeouts)
    (hivs : s'.intervals = s.intervals)
    (hfl : s'.isLongPress = s.isLongPress)
    (h : Inv s) : Inv s' := by
  obtain ⟨h1, h2, h3⟩ := h
  refine ⟨?_, ?_, ?_⟩
  · intro hc
    rw [hlp] at hc
    obtain ⟨a, b, c, d⟩ := h1 hc
    exact ⟨by rw [hiv, a], by rw [hto, b], by rw [hivs, c], by rw [hfl, d]⟩
  · intro i hc1 hc2
    rw [hlp] at hc1
    rw [hiv] at hc2
    obtain ⟨a, b, c⟩ := h2 i hc1 hc2
    exact ⟨by rw [hto]; exact a, by rw [hivs, b], by rw [hfl, c]⟩
  · intro i j hc1 hc2
    rw [hlp] at hc1
    rw [hiv] at hc2
    obtain ⟨a, b, c⟩ := h3 i j hc1 hc2
    exact ⟨by rw [hto, a], by rw [hivs]; exact b, by rw [hfl, c]⟩

/-- `stopLongPress` always leaves the controller fully at rest: both
handles null, no pending timer, `isLongPress` reset. -/
lemma stop_rest (cfg : Config) (ip ic : Bool) (s : CSys) (hInv : Inv s) :
    (stopLongPress cfg ip ic s).longPressTimeoutId = none ∧
    (stopLongPress cfg ip ic s).intervalId = none ∧
    (stopLongPress cfg ip ic s).timeouts = [] ∧
    (stopLongPress cfg ip ic s).intervals = [] ∧
    (stopLongPress cfg ip ic s).isLongPress = false := by
  obtain ⟨h1, h2, h3⟩ := hInv
  rcases hLp : s.longPressTimeoutId with _ | i
  · obtain ⟨hIv, hto, hivs, _⟩ := h1 hLp
    simp [stopLongPress, hLp, hIv, hto, hivs, setAria, removeTimer,
      apply_ite CSys.longPressTimeoutId, apply_ite CSys.intervalId,
      apply_ite CSys.timeouts, apply_ite CSys.intervals, apply_ite CSys.isLongPress]
  · rcases hIv : s.intervalId with _ | j
    · obtain ⟨⟨u, hto⟩, hivs, _⟩ := h2 i hLp hIv
      simp [stopLongPress, hLp, hIv, hto, hivs, setAria, removeTimer,
        apply_ite CSys.longPressTimeoutId, apply_ite CSys.intervalId,
        apply_ite CSys.timeouts, apply_ite CSys.intervals, apply_ite CSys.isLongPress]
    · obtain ⟨hto, ⟨u, hivs⟩, _⟩ := h3 i j hLp hIv
      simp [stopLongPress, hLp, hIv, hto, hivs, setAria, removeTimer,
        apply_ite CSys.longPressTimeoutId, apply_ite CSys.intervalId,
        apply_ite CSys.timeouts, apply_ite CSys.intervals, apply_ite CSys.isLongPress]

lemma Inv_stop (cfg : Config) (ip ic : Bool) (s : CSys) (hInv : Inv s) :
    Inv (stopLongPress cfg ip ic s) := by
  obtain ⟨a, b, c, d, e⟩ := stop_rest cfg ip ic s hInv
  exact Inv_of_rest _ ⟨a, b, c, d, e⟩

lemma Inv_short (cfg : Config) (ip : Bool) (s : CSys) (hInv : Inv s) :
    Inv (handleShortPress cfg ip s) := by
  unfold handleShortPress
  apply Inv_stop
  by_cases hl : s.isLongPress
  · simp only [hl, if_true]
    exact hInv
  · simp only [hl, Bool.false_eq_true, if_false]
    exact Inv_congr s (logIf cfg.hasOnFinish Out.finish (pushLog Out.action s))
      (by simp [pushLog]) (by simp [pushLog]) (by simp [pushLog]) (by simp [pushLog])
      (by simp [pushLog]) hInv

/-- Shape of the state produced by `startLongPress`. -/
lemma start_shape (cfg : Config) (ip : Bool) (s : CSys) :
    (startLongPress cfg ip s).longPressTimeoutId = some s.nextId ∧
    (startLongPress cfg ip s).intervalId = s.intervalId ∧
    (startLongPress cfg ip s).timeouts = s.timeouts ++ [(s.nextId, s.time + cfg.delay)] ∧
    (startLongPress cfg ip s).intervals = s.intervals ∧
    (startLongPress cfg ip s).isLongPress = s.isLongPress := by
  simp [startLongPress, setAria, apply_ite CSys.nextId, apply_ite CSys.time,
    apply_ite CSys.intervalId, apply_ite CSys.timeouts, apply_ite CSys.intervals,
    apply_ite CSys.isLongPress]

lemma Inv_start_of_rest (cfg : Config) (ip : Bool) (s : CSys)
    (hLp : s.longPressTimeoutId = none) (hInv : Inv s) :
    Inv (startLongPress cfg ip s) := by
  obtain ⟨h1, _, _⟩ := hInv
  obtain ⟨hIv, hto, hivs, hlpr⟩ := h1 hLp
  obtain ⟨slp, siv, sto, sivs, slpr⟩ := start_shape cfg ip s
  refine ⟨?_, ?_, ?_⟩
  · intro hc
    rw [slp] at hc
    cases hc
  · intro i hc1 _
    rw [slp] at hc1
    refine ⟨⟨s.time + cfg.delay, ?_⟩, by rw [sivs, hivs], by rw [slpr, hlpr]⟩
    rw [sto, hto, Option.some.inj hc1]
    rfl
  · intro i j _ hc2
    rw [siv, hIv] at hc2
    cases hc2

lemma Inv_handle (cfg : Config) (s : CSys) (e : Input) (hInv : Inv s)
    (hstart : startsPressB s e = true → atRestB s = true) : Inv (handle cfg s e) := by
  have hrest : atRestB s = true → s.longPressTimeoutId = none := by
    intro h
    rw [atRestB, Bool.and_eq_true, Option.isNone_iff_eq_none, Option.isNone_iff_eq_none] at h
    exact h.1
  cases e with
  | pointerdown =>
    exact Inv_start_of_rest cfg true s (hrest (hstart rfl)) hInv
  | pointerup => exact Inv_short cfg true s hInv
  | pointerleave => exact Inv_stop cfg true true s hInv
  | pointercancel => exact Inv_stop cfg true true s hInv
  | keydown k =>
    show Inv (handleKeyAction cfg k true s)
    unfold handleKeyAction
    rcases hke : isEnterOrSpace k with _ | _
    · simp only [hke, if_true]
      exact hInv
    · simp only [hke, Bool.true_eq_false, if_false, Bool.true_and]
      rcases hkd : s.isKeyDown with _ | _
      · simp only [hkd, Bool.not_false, if_true]
        have hR : s.longPressTimeoutId = none := by
          apply hrest
          apply hstart
          simp [startsPressB, hke, hkd]
        exact Inv_start_of_rest cfg false { s with isKeyDown := true } hR
          (Inv_congr s { s with isKeyDown := true } rfl rfl rfl rfl rfl hInv)
      · simp only [hkd, Bool.not_true, Bool.false_eq_true, if_false]
        exact hInv
  | keyup k =>
    show Inv (handleKeyAction cfg k false s)
    unfold handleKeyAction
    rcases hke : isEnterOrSpace k with _ | _
    · simp only [hke, if_true]
      exact hInv
    · simp only [hke, Bool.true_eq_false, if_false, Bool.false_and, Bool.not_false, if_true]
      exact Inv_short cfg false { s with isKeyDown := false }
        (Inv_congr s { s with isKeyDown := false } rfl rfl rfl rfl rfl hInv)
  | dispose => exact hInv

lemma deliver_cases (cfg : Config) (s : CSys) (e : Input) (hnd : e ≠ Input.dispose) :
    deliver cfg s e = handle cfg s e ∨ deliver cfg s e = s := by
  cases e
  case dispose => exact absurd rfl hnd
  all_goals
    simp only [deliver, listenerOf]
    split
    · exact Or.inl rfl
    · exact Or.inr rfl

lemma Inv_deliver (cfg : Config) (s : CSys) (e : Input) (hInv : Inv s)
    (hnd : e ≠ Input.dispose)
    (hstart : startsPressB s e = true → atRestB s = true) : Inv (deliver cfg s e) := by
  rcases deliver_cases cfg s e hnd with h | h
  · rw [h]
    exact Inv_handle cfg s e hInv hstart
  · rw [h]
    exact hInv

lemma Inv_runEvents (cfg : Config) (fuel : Nat) :
    ∀ (sched : List (Nat × Input)) (s s' : CSys), Inv s →
      DisciplinedB cfg fuel s sched = true →
      runEvents cfg fuel s sched = some s' → Inv s' := by
  intro sched
  induction sched with
  | nil =>
    intro s s' hInv _ h
    simp only [runEvents, Option.some.injEq] at h
    subst h
    exact hInv
  | cons te rest ih =>
    obtain ⟨t, e⟩ := te
    intro s s' hInv hdisc h
    rw [runEvents] at h
    rcases hadv : advanceTo cfg fuel s t with _ | s1
    · rw [hadv] at h
      cases h
    · rw [hadv] at h
      rw [DisciplinedB, hadv, Bool.and_eq_true, Bool.and_eq_true] at hdisc
      obtain ⟨hne, hguard, hrest⟩ := hdisc
      have hInv1 := Inv_advanceTo cfg fuel s t s1 hInv hadv
      have hs : startsPressB s1 e = true → atRestB s1 = true := by
        intro hsp
        rw [hsp] at hguard
        simpa using hguard
      exact ih (deliver cfg s1 e) s' (Inv_deliver cfg s1 e hInv1 (by
        intro hc
        rw [hc] at hne
        simp at hne) hs) hrest h

lemma Inv_initC : Inv initC := by
  refine ⟨fun _ => ⟨rfl, rfl, rfl, rfl⟩, ?_, ?_⟩
  · intro i hc
    cases hc
  · intro i j hc _
    cases hc

/-- Counterexample to C5 as stated: with the default configuration, one
pointer-down held to the delay (t = 1000) leaves BOTH timer-handle
variables non-null — the delay-timeout handle is stale but never
nulled by the timer callback — although the claim allows at most one
non-null handle after the delay elapses. -/
theorem claim5_counterexample :
    (runTo defCfg 4 [(0, Input.pointerdown)] 1000).map
      (fun s => s.longPressTimeoutId.isSome && s.intervalId.isSome) = some true := by
  decide

/-- C5, amended: on every disciplined schedule of input events and timer
firings (no disposer call and no new press-start while a press is
active — the single-pointer sequences the spec covers), at most one
timer is PENDING at any observation point; after the delay elapses
(`isLongPress` set) both handle variables are non-null (the delay handle
being stale) and exactly the repeating timer is pending; and whenever
both handles are null, no timer of either kind is pending. -/
theorem claim5_amended (cfg : Config) (fuel horizon : Nat)
    (sched : List (Nat × Input)) (s : CSys)
    (hdisc : DisciplinedB cfg fuel initC sched = true)
    (hrun : runTo cfg fuel sched horizon = some s) :
    s.timeouts.length + s.intervals.length ≤ 1 ∧
    (s.isLongPress = true →
      s.longPressTimeoutId.isSome = true ∧ s.intervalId.isSome = true ∧
      s.timeouts = [] ∧ s.intervals.length = 1) ∧
    (s.longPressTimeoutId = none ∧ s.intervalId = none →
      s.timeouts = [] ∧ s.intervals = []) := by
  rw [runTo] at hrun
  rcases hre : runEvents cfg fuel initC sched with _ | s1
  · rw [hre] at hrun
    cases hrun
  · rw [hre] at hrun
    have hInv1 := Inv_runEvents cfg fuel sched initC s1 Inv_initC hdisc hre
    have hInv := Inv_advanceTo cfg fuel s1 horizon s hInv1 hrun
    obtain ⟨h1, h2, h3⟩ := hInv
    refine ⟨?_, ?_, ?_⟩
    · rcases hLp : s.longPressTimeoutId with _ | i
      · obtain ⟨_, hto, hivs, _⟩ := h1 hLp
        simp [hto, hivs]
      · rcases hIv : s.intervalId with _ | j
        · obtain ⟨⟨u, hto⟩, hivs, _⟩ := h2 i hLp hIv
          simp [hto, hivs]
        · obtain ⟨hto, ⟨u, hivs⟩, _⟩ := h3 i j hLp hIv
          simp [hto, hivs]
    · intro hlp
      rcases hLp : s.longPressTimeoutId with _ | i
      · obtain ⟨_, _, _, hf⟩ := h1 hLp
        rw [hlp] at hf
        cases hf
      · rcases hIv : s.intervalId with _ | j
        · obtain ⟨_, _, hf⟩ := h2 i hLp hIv
          rw [hlp] at hf
          cases hf
        · obtain ⟨hto, ⟨u, hivs⟩, _⟩ := h3 i j hLp hIv
          exact ⟨rfl, rfl, hto, by simp [hivs]⟩
    · rintro ⟨hlp, _⟩
      obtain ⟨_, hto, hivs, _⟩ := h1 hlp
      exact ⟨hto, hivs⟩

/-- Witness for C5 (amended): a disciplined press-and-release run. -/
theorem claim5_amended_witness :
    (restState 1 400 (some false) (shortLogP 300)).timeouts.length +
      (restState 1 400 (some false) (shortLogP 300)).intervals.length ≤ 1 ∧
    ((restState 1 400 (some false) (shortLogP 300)).isLongPress = true →
      (restState 1 400 (some false) (shortLogP 300)).longPressTimeoutId.isSome = true ∧
      (restState 1 400 (some false) (shortLogP 300)).intervalId.isSome = true ∧
      (restState 1 400 (some false) (shortLogP 300)).timeouts = [] ∧
      (restState 1 400 (some false) (shortLogP 300)).intervals.length = 1) ∧
    ((restState 1 400 (some false) (shortLogP 300)).longPressTimeoutId = none ∧
      (restState 1 400 (some false) (shortLogP 300)).intervalId = none →
      (restState 1 400 (some false) (shortLogP 300)).timeouts = [] ∧
      (restState 1 400 (some false) (shortLogP 300)).intervals = []) :=
  claim5_amended cw 10 400 [(0, Input.pointerdown), (300, Input.pointerup)]
    (restState 1 400 (some false) (shortLogP 300)) (by decide) (by decide)

lemma listeners_start (cfg : Config) (ip : Bool) (s : CSys) :
    (startLongPress cfg ip s).listeners = s.listeners := by
  simp [startLongPress, setAria, apply_ite CSys.listeners]

lemma listeners_stop (cfg : Config) (ip ic : Bool) (s : CSys) :
    (stopLongPress cfg ip ic s).listeners = s.listeners := by
  rcases hIv : s.intervalId with _ | j <;>
    rcases hLp : s.longPressTimeoutId with _ | i <;>
      simp [stopLongPress, hIv, hLp, setAria, apply_ite CSys.listeners]

lemma listeners_short (cfg : Config) (ip : Bool) (s : CSys) :
    (handleShortPress cfg ip s).listeners = s.listeners := by
  rw [handleShortPress, listeners_stop]
  by_cases hl : s.isLongPress <;> simp [hl, pushLog]

lemma listeners_handle (cfg : Config) (s : CSys) (e : Input) :
    (handle cfg s e).listeners = s.listeners := by
  cases e with
  | pointerdown => exact listeners_start cfg true s
  | pointerup => exact listeners_short cfg true s
  | pointerleave => exact listeners_stop cfg true true s
  | pointercancel => exact listeners_stop cfg true true s
  | keydown k =>
    show (handleKeyAction cfg k true s).listeners = s.listeners
    rw [handleKeyAction]
    rcases hke : isEnterOrSpace k with _ | _
    · simp
    · rcases hkd : s.isKeyDown with _ | _ <;>
        simp [hkd, listeners_start cfg false { s with isKeyDown := true }]
  | keyup k =>
    show (handleKeyAction cfg k false s).listeners = s.listeners
    rw [handleKeyAction]
    rcases hke : isEnterOrSpace k with _ | _
    · simp
    · simp [listeners_short cfg false { s with isKeyDown := false }]
  | dispose => rfl

lemma listeners_fireRef (cfg : Config) (r : TRef) (s : CSys) :
    (fireRef cfg r s).listeners = s.listeners := by
  cases r <;> rfl

lemma listeners_advanceTo (cfg : Config) :
    ∀ (fuel : Nat) (s : CSys) (t : Nat) (s' : CSys),
      advanceTo cfg fuel s t = some s' → s'.listeners = s.listeners := by
  intro fuel
  induction fuel with
  | zero =>
    intro s t s' h
    rw [advanceTo] at h
    rcases hfn : findNext s t with _ | r
    · rw [hfn] at h
      simp only [Option.some.injEq] at h
      subst h
      rfl
    · rw [hfn] at h
      cases h
  | succ fuel ih =>
    intro s t s' h
    rw [advanceTo] at h
    rcases hfn : findNext s t with _ | r
    · rw [hfn] at h
      simp only [Option.some.injEq] at h
      subst h
      rfl
    · rw [hfn] at h
      rw [ih (fireRef cfg r s) t s' h, listeners_fireRef]

/-- Listener sets reachable by any schedule: either all six listeners
are still registered, or the disposer removed them all. -/
lemma listeners_runEvents (cfg : Config) (fuel : Nat) :
    ∀ (sched : List (Nat × Input)) (s s' : CSys),
      (s.listeners = allListeners ∨ s.listeners = []) →
      runEvents cfg fuel s sched = some s' →
      s'.listeners = allListeners ∨ s'.listeners = [] := by
  intro sched
  induction sched with
  | nil =>
    intro s s' hP h
    simp only [runEvents, Option.some.injEq] at h
    subst h
    exact hP
  | cons te rest ih =>
    obtain ⟨t, e⟩ := te
    intro s s' hP h
    rw [runEvents] at h
    rcases hadv : advanceTo cfg fuel s t with _ | s1
    · rw [hadv] at h
      cases h
    · rw [hadv] at h
      have hP1 : s1.listeners = allListeners ∨ s1.listeners = [] := by
        rw [listeners_advanceTo cfg fuel s t s1 hadv]
        exact hP
      refine ih (deliver cfg s1 e) s' ?_ h
      by_cases hd : e = Input.dispose
      · subst hd
        have : (deliver cfg s1 Input.dispose).listeners = disposeAll s1.listeners := rfl
        rw [this]
        rcases hP1 with h1 | h1 <;> rw [h1]
        · right
          decide
        · right
          decide
      · rcases deliver_cases cfg s1 e hd with hcase | hcase <;> rw [hcase]
        · rw [listeners_handle]
          exact hP1
        · exact hP1

/-- C9: calling the disposer a second time removes nothing (every
listener registration it would erase is already gone) and changes no
other state: the state after two disposer calls equals the state after
one, and a disposer call never touches log, timers, or the attribute. -/
theorem claim9_disposer_idempotent (cfg : Config) (fuel : Nat)
    (sched : List (Nat × Input)) (s : CSys)
    (hrun : runEvents cfg fuel initC sched = some s) :
    deliver cfg (deliver cfg s Input.dispose) Input.dispose =
      deliver cfg s Input.dispose ∧
    (deliver cfg s Input.dispose).log = s.log ∧
    (deliver cfg s Input.dispose).timeouts = s.timeouts ∧
    (deliver cfg s Input.dispose).intervals = s.intervals ∧
    (deliver cfg s Input.dispose).aria = s.aria := by
  have hl : s.listeners = allListeners ∨ s.listeners = [] :=
    listeners_runEvents cfg fuel sched initC s (Or.inl rfl) hrun
  have h2 : disposeAll (disposeAll s.listeners) = disposeAll s.listeners := by
    rcases hl with h | h <;> rw [h] <;> decide
  refine ⟨?_, rfl, rfl, rfl, rfl⟩
  show ({ s with listeners := disposeAll (disposeAll s.listeners) } : CSys) =
    { s with listeners := disposeAll s.listeners }
  rw [h2]

/-- Witness for C9: double disposal on a freshly constructed controller. -/
theorem claim9_disposer_idempotent_witness :
    deliver cw (deliver cw initC Input.dispose) Input.dispose =
      deliver cw initC Input.dispose ∧
    (deliver cw initC Input.dispose).log = initC.log ∧
    (deliver cw initC Input.dispose).timeouts = initC.timeouts ∧
    (deliver cw initC Input.dispose).intervals = initC.intervals ∧
    (deliver cw initC Input.dispose).aria = initC.aria :=
  claim9_disposer_idempotent cw 0 [] initC rfl

/-- C1 (code bug): the disposer only removes listeners; it does not
clear an in-flight timer.  With the default configuration, pointer-down
at 0 and disposal at 300, the delay timeout still fires at 1000 and the
repeating timer then invokes the action at 1075 — after disposal and
with all listeners removed — and a pending repeating timer survives. -/
theorem claim1_disposal_leak :
    (runTo defCfg 8 [(0, Input.pointerdown), (300, Input.dispose)] 1100).map
      (fun s => (s.log, s.intervals.length, s.listeners)) =
      some ([(0, Out.ariaSet true), (1075, Out.action)], 1, []) := by
  decide

lemma aria_start_pointer (cfg : Config) (s : CSys) :
    (startLongPress cfg true s).aria = some true := by
  simp [startLongPress, setAria]

lemma aria_start_key (cfg : Config) (s : CSys) :
    (startLongPress cfg false s).aria = s.aria := by
  simp [startLongPress]

lemma aria_stop_pointer (cfg : Config) (ic : Bool) (s : CSys) :
    (stopLongPress cfg true ic s).aria = some false := by
  rcases hIv : s.intervalId with _ | j <;>
    rcases hLp : s.longPressTimeoutId with _ | i <;>
      simp [stopLongPress, hIv, hLp, setAria]

lemma aria_stop_key (cfg : Config) (ic : Bool) (s : CSys) :
    (stopLongPress cfg false ic s).aria = s.aria := by
  rcases hIv : s.intervalId with _ | j <;>
    rcases hLp : s.longPressTimeoutId with _ | i <;>
      simp [stopLongPress, hIv, hLp, setAria]

lemma aria_short_pointer (cfg : Config) (s : CSys) :
    (handleShortPress cfg true s).aria = some false :=
  aria_stop_pointer cfg false _

lemma aria_short_key (cfg : Config) (s : CSys) :
    (handleShortPress cfg false s).aria = s.aria := by
  rw [handleShortPress, aria_stop_key]
  by_cases hl : s.isLongPress <;> simp [hl, pushLog]

lemma aria_key (cfg : Config) (k : Key) (b : Bool) (s : CSys) :
    (handleKeyAction cfg k b s).aria = s.aria := by
  rw [handleKeyAction]
  rcases hke : isEnterOrSpace k with _ | _
  · simp
  · cases b <;> rcases hkd : s.isKeyDown with _ | _ <;>
      simp [hke, hkd, aria_short_key cfg { s with isKeyDown := false },
        aria_start_key cfg { s with isKeyDown := true }]

/-- Counterexample to C6 as stated: a full keyboard-initiated press
(Enter down at 0, Enter up at 10) never writes the pressed attribute at
all — the `aria-pressed` writes are guarded by `e instanceof
PointerEvent` — although the claim requires the attribute to be set on
keyboard-initiated presses too. -/
theorem claim6_counterexample :
    (runTo defCfg 4 [(0, Input.keydown Key.enter), (10, Input.keyup Key.enter)] 10).map
      (fun s => s.aria) = some none := by
  decide

/-- C6, amended: only pointer-initiated press-starts set `aria-pressed`
to true, and only pointer-delivered stops (release, leave, cancel) set
it to false; keyboard-initiated press handling never touches the
attribute; and no handler modifies the listener registrations (no other
element state is touched). -/
theorem claim6_amended (cfg : Config) :
    (∀ s, (startLongPress cfg true s).aria = some true) ∧
    (∀ s ic, (stopLongPress cfg true ic s).aria = some false) ∧
    (∀ s, (handleShortPress cfg true s).aria = some false) ∧
    (∀ s, (startLongPress cfg false s).aria = s.aria) ∧
    (∀ s ic, (stopLongPress cfg false ic s).aria = s.aria) ∧
    (∀ s k b, (handleKeyAction cfg k b s).aria = s.aria) ∧
    (∀ s e, (handle cfg s e).listeners = s.listeners) :=
  ⟨fun s => aria_start_pointer cfg s,
   fun s ic => aria_stop_pointer cfg ic s,
   fun s => aria_short_pointer cfg s,
   fun s => aria_start_key cfg s,
   fun s ic => aria_stop_key cfg ic s,
   fun s k b => aria_key cfg k b s,
   fun s e => listeners_handle cfg s e⟩

lemma removePending_eq_filter (i : Nat) (l : List (Nat × Nat × Nat)) :
    removePending i l = l.filter fun p => p.1 != i := by
  induction l with
  | nil => rfl
  | cons q r ih =>
    rw [removePending, List.filter_cons]
    by_cases h : q.1 = i <;> simp [h, ih]

lemma mem_removePending (i : Nat) (l : List (Nat × Nat × Nat)) (p : Nat × Nat × Nat) :
    p ∈ removePending i l ↔ p ∈ l ∧ p.1 ≠ i := by
  rw [removePending_eq_filter, List.mem_filter]
  simp

lemma pairwise_removePending (i : Nat) (l : List (Nat × Nat × Nat))
    (h : l.Pairwise fun p q => p.1 ≠ q.1) :
    (removePending i l).Pairwise fun p q => p.1 ≠ q.1 := by
  rw [removePending_eq_filter]
  exact h.filter _

lemma length_le_one_of_same (l : List (Nat × Nat × Nat)) (c : Nat)
    (hpw : l.Pairwise fun p q => p.1 ≠ q.1) (hall : ∀ p ∈ l, p.1 = c) :
    l.length ≤ 1 := by
  match l with
  | [] => simp
  | [p] => simp
  | p :: q :: r =>
    exfalso
    have h1 := hall p (by simp)
    have h2 := hall q (by simp)
    have h3 := (List.pairwise_cons.mp hpw).1 q (by simp)
    exact h3 (by rw [h1, h2])

lemma watches_exists (s : ASys) (w : Nat) (h : w < s.watches.length) :
    ∃ watch : Watch, s.watches[w]? = some watch :=
  ⟨s.watches[w], List.getElem?_eq_some.mpr ⟨h, rfl⟩⟩

lemma firedCount_big (s : ASys) (w : Nat)
    (h6 : ∀ q ∈ s.log, q.2 < s.watches.length) (hw : s.watches.length ≤ w) :
    firedCount s w = 0 := by
  rw [firedCount, List.length_eq_zero, List.filter_eq_nil]
  intro q hq
  have := h6 q hq
  simp only [beq_iff_eq]
  omega

/-- `startLongPressTimer` on a live watch preserves the detector
invariant. -/
lemma AInv_start (w : Nat) (s : ASys) (hInv : AInv s)
    (hact : ∀ watch : Watch, s.watches[w]? = some watch → watch.active = true) :
    AInv (startLongPressTimer w s) := by
  obtain ⟨h1, h2, h3, h4, h5, h6, h7, h8⟩ := hInv
  rcases hw : s.watches[w]? with _ | watch
  · simp only [startLongPressTimer, hw]
    exact ⟨h1, h2, h3, h4, h5, h6, h7, h8⟩
  · have hwlen : w < s.watches.length := (List.getElem?_eq_some.mp hw).1
    have hactw := hact watch hw
    have hmem : ∀ p ∈ (match watch.timerVar with
        | some tid => removePending tid s.pending
        | none => s.pending), p ∈ s.pending ∧ p.2.2 ≠ w := by
      rcases htv : watch.timerVar with _ | tid
      · intro p hp
        refine ⟨hp, fun hc => ?_⟩
        have := (h3 p hp watch (by rw [hc]; exact hw)).1
        rw [htv] at this
        cases this
      · intro p hp
        rw [mem_removePending] at hp
        refine ⟨hp.1, fun hc => ?_⟩
        have := (h3 p hp.1 watch (by rw [hc]; exact hw)).1
        rw [htv] at this
        exact hp.2 (Option.some.inj this).symm
    have hpw1 : (match watch.timerVar with
        | some tid => removePending tid s.pending
        | none => s.pending).Pairwise (fun p q : Nat × Nat × Nat => p.1 ≠ q.1) := by
      rcases watch.timerVar with _ | tid
      · exact h2
      · exact pairwise_removePending tid s.pending h2
    simp only [startLongPressTimer, hw]
    rw [AInv]
    dsimp only
    refine ⟨?_, ?_, ?_, ?_, ?_, ?_, ?_, ?_⟩
    · intro p hp
      rcases List.mem_append.mp hp with hp | hp
      · obtain ⟨hp', _⟩ := hmem p hp
        obtain ⟨a, b⟩ := h1 p hp'
        constructor
        · omega
        · simpa using b
      · rw [List.mem_singleton] at hp
        subst hp
        constructor
        · omega
        · simpa using hwlen
    · rw [List.pairwise_append]
      refine ⟨hpw1, by simp, ?_⟩
      intro p hp q hq
      rw [List.mem_singleton] at hq
      subst hq
      obtain ⟨hp', _⟩ := hmem p hp
      have := (h1 p hp').1
      omega
    · intro p hp watch0 hw0
      rcases List.mem_append.mp hp with hp | hp
      · obtain ⟨hp', hne⟩ := hmem p hp
        rw [List.getElem?_set, if_neg (fun hc => hne hc.symm)] at hw0
        exact h3 p hp' watch0 hw0
      · rw [List.mem_singleton] at hp
        subst hp
        rw [List.getElem?_set, if_pos rfl] at hw0
        simp only [hwlen, if_true, Option.some.injEq] at hw0
        subst hw0
        exact ⟨rfl, hactw⟩
    · intro v watch0 t hv ht
      by_cases hvw : v = w
      · subst hvw
        rw [List.getElem?_set, if_pos rfl] at hv
        simp only [hwlen, if_true, Option.some.injEq] at hv
        subst hv
        simp only [Option.some.injEq] at ht
        omega
      · rw [List.getElem?_set, if_neg (fun hc => hvw hc.symm)] at hv
        have := h4 v watch0 t hv ht
        omega
    · intro w1 w2 watch1 watch2 t hne hv1 hv2 ht
      by_cases hw1 : w1 = w
      · subst hw1
        rw [List.getElem?_set, if_pos rfl] at hv1
        simp only [hwlen, if_true, Option.some.injEq] at hv1
        subst hv1
        simp only [Option.some.injEq] at ht
        rw [List.getElem?_set, if_neg hne] at hv2
        intro hc
        have := h4 w2 watch2 t hv2 hc
        omega
      · rw [List.getElem?_set, if_neg (fun hc => hw1 hc.symm)] at hv1
        by_cases hw2 : w2 = w
        · subst hw2
          rw [List.getElem?_set, if_pos rfl] at hv2
          simp only [hwlen, if_true, Option.some.injEq] at hv2
          subst hv2
          intro hc
          simp only [Option.some.injEq] at hc
          have := h4 w1 watch1 t hv1 ht
          omega
        · rw [List.getElem?_set, if_neg (fun hc => hw2 hc.symm)] at hv2
          exact h5 w1 w2 watch1 watch2 t hne hv1 hv2 ht
    · intro q hq
      have := h6 q hq
      simpa using this
    · intro v
      exact h7 v
    · intro v watch0 hv hac
      by_cases hvw : v = w
      · subst hvw
        exact h8 v watch hw hactw
      · rw [List.getElem?_set, if_neg (fun hc => hvw hc.symm)] at hv
        exact h8 v watch0 hv hac

/-- `clearLongPressTimer` preserves the detector invariant. -/
lemma AInv_clear (w : Nat) (s : ASys) (hInv : AInv s) :
    AInv (clearLongPressTimer w s) := by
  obtain ⟨h1, h2, h3, h4, h5, h6, h7, h8⟩ := hInv
  rcases hw : s.watches[w]? with _ | watch
  · simp only [clearLongPressTimer, hw]
    exact ⟨h1, h2, h3, h4, h5, h6, h7, h8⟩
  · rcases htv : watch.timerVar with _ | tid
    · simp only [clearLongPressTimer, hw, htv]
      exact ⟨h1, h2, h3, h4, h5, h6, h7, h8⟩
    · simp only [clearLongPressTimer, hw, htv]
      rw [AInv]
      dsimp only
      refine ⟨?_, ?_, ?_, h4, h5, h6, h7, h8⟩
      · intro p hp
        exact h1 p ((mem_removePending tid s.pending p).mp hp).1
      · exact pairwise_removePending tid s.pending h2
      · intro p hp watch0 hw0
        exact h3 p ((mem_removePending tid s.pending p).mp hp).1 watch0 hw0

/-- Appending a fresh (timer-less, active) watch preserves the detector
invariant. -/
lemma AInv_append (s : ASys) (e : Nat) (hInv : AInv s) :
    AInv { s with watches := s.watches ++ [{ elem := e, timerVar := none, active := true }] } := by
  obtain ⟨h1, h2, h3, h4, h5, h6, h7, h8⟩ := hInv
  have hget : ∀ (v : Nat) (watch0 : Watch),
      (s.watches ++ [{ elem := e, timerVar := none, active := true }])[v]? = some watch0 →
      s.watches[v]? = some watch0 ∨
        (v = s.watches.length ∧ watch0 = { elem := e, timerVar := none, active := true }) := by
    intro v watch0 hv
    by_cases hlt : v < s.watches.length
    · rw [List.getElem?_append, if_pos hlt] at hv
      exact Or.inl hv
    · rw [List.getElem?_append, if_neg hlt] at hv
      by_cases heq : v = s.watches.length
      · subst heq
        simp only [Nat.sub_self] at hv
        simp at hv
        exact Or.inr ⟨rfl, hv.symm⟩
      · exfalso
        rcases hk : v - s.watches.length with _ | k
        · omega
        · rw [hk] at hv
          simp at hv
  refine ⟨?_, h2, ?_, ?_, ?_, ?_, h7, ?_⟩
  · intro p hp
    obtain ⟨a, b⟩ := h1 p hp
    refine ⟨a, ?_⟩
    simp only [List.length_append, List.length_cons, List.length_nil]
    omega
  · intro p hp watch0 hw0
    have hlt := (h1 p hp).2
    rw [List.getElem?_append, if_pos hlt] at hw0
    exact h3 p hp watch0 hw0
  · intro v watch0 t hv ht
    rcases hget v watch0 hv with h | ⟨_, rfl⟩
    · exact h4 v watch0 t h ht
    · cases ht
  · intro w1 w2 watch1 watch2 t hne hv1 hv2 ht
    rcases hget w1 watch1 hv1 with ha | ⟨_, rfl⟩
    · rcases hget w2 watch2 hv2 with hb | ⟨_, rfl⟩
      · exact h5 w1 w2 watch1 watch2 t hne ha hb ht
      · simp
    · cases ht
  · intro q hq
    have := h6 q hq
    simp only [List.length_append, List.length_cons, List.length_nil]
    omega
  · intro v watch0 hv hac
    rcases hget v watch0 hv with h | ⟨rfl, _⟩
    · exact h8 v watch0 h hac
    · exact firedCount_big s s.watches.length h6 (Nat.le_refl _)

lemma foldl_sel_mem {α : Type} (f : Option α → α → Option α)
    (hf : ∀ acc x, f acc x = acc ∨ f acc x = some x) :
    ∀ (l : List α) (acc : Option α) (r : α),
      l.foldl f acc = some r → acc = some r ∨ r ∈ l := by
  intro l
  induction l with
  | nil => intro acc r h; exact Or.inl h
  | cons x xs ih =>
    intro acc r h
    rcases ih (f acc x) r h with h' | h'
    · rcases hf acc x with h2 | h2
      · rw [h2] at h'
        exact Or.inl h'
      · rw [h2] at h'
        exact Or.inr (by simp [Option.some.inj h'])
    · exact Or.inr (List.mem_cons_of_mem x h')

lemma findNextA_mem (s : ASys) (t : Nat) (p : Nat × Nat × Nat)
    (h : findNextA s t = some p) : p ∈ s.pending := by
  rw [findNextA] at h
  have hf : ∀ (acc : Option (Nat × Nat × Nat)) (x : Nat × Nat × Nat),
      (if x.2.1 ≤ t then
        match acc with
        | none => some x
        | some q => if x.2.1 < q.2.1 ∨ (x.2.1 = q.2.1 ∧ x.1 < q.1) then some x else some q
       else acc) = acc ∨
      (if x.2.1 ≤ t then
        match acc with
        | none => some x
        | some q => if x.2.1 < q.2.1 ∨ (x.2.1 = q.2.1 ∧ x.1 < q.1) then some x else some q
       else acc) = some x := by
    intro acc x
    by_cases hx : x.2.1 ≤ t
    · rw [if_pos hx]
      rcases acc with _ | q
      · exact Or.inr rfl
      · dsimp only
        by_cases hc : x.2.1 < q.2.1 ∨ (x.2.1 = q.2.1 ∧ x.1 < q.1)
        · rw [if_pos hc]
          exact Or.inr rfl
        · rw [if_neg hc]
          exact Or.inl rfl
    · rw [if_neg hx]
      exact Or.inl rfl
  rcases foldl_sel_mem _ hf s.pending none p h with h' | h'
  · cases h'
  · exact h'

/-- Firing a pending ambient timer preserves the detector invariant. -/
lemma AInv_fireA (s : ASys) (p : Nat × Nat × Nat) (hInv : AInv s) (hp : p ∈ s.pending) :
    AInv (fireA s p) := by
  obtain ⟨h1, h2, h3, h4, h5, h6, h7, h8⟩ := hInv
  obtain ⟨hid, hidx⟩ := h1 p hp
  obtain ⟨watch0, hw0⟩ := watches_exists s p.2.2 hidx
  obtain ⟨htv0, hact0⟩ := h3 p hp watch0 hw0
  have hfired0 : firedCount s p.2.2 = 0 := h8 p.2.2 watch0 hw0 hact0
  have hfc : ∀ v : Nat,
      ((s.log ++ [(p.2.1, p.2.2)]).filter fun q => q.2 == v).length =
        firedCount s v + (if p.2.2 = v then 1 else 0) := by
    intro v
    rw [List.filter_append, List.length_append, firedCount]
    by_cases hv : p.2.2 = v <;> simp [hv]
  simp only [fireA, hw0]
  rw [AInv]
  dsimp only
  refine ⟨?_, pairwise_removePending p.1 s.pending h2, ?_, ?_, ?_, ?_, ?_, ?_⟩
  · intro q hq
    obtain ⟨hq', _⟩ := (mem_removePending p.1 s.pending q).mp hq
    obtain ⟨a, b⟩ := h1 q hq'
    refine ⟨a, ?_⟩
    simpa using b
  · intro q hq watchq hwq
    obtain ⟨hq', hqne⟩ := (mem_removePending p.1 s.pending q).mp hq
    have hne : q.2.2 ≠ p.2.2 := by
      intro hc
      have := (h3 q hq' watch0 (by rw [hc]; exact hw0)).1
      rw [htv0] at this
      exact hqne (Option.some.inj this).symm
    rw [List.getElem?_set, if_neg (fun hc => hne hc.symm)] at hwq
    exact h3 q hq' watchq hwq
  · intro v watchv t hv ht
    by_cases hvw : v = p.2.2
    · subst hvw
      rw [List.getElem?_set, if_pos rfl] at hv
      simp only [hidx, if_true, Option.some.injEq] at hv
      subst hv
      exact h4 p.2.2 watch0 t hw0 ht
    · rw [List.getElem?_set, if_neg (fun hc => hvw hc.symm)] at hv
      exact h4 v watchv t hv ht
  · intro w1 w2 watch1 watch2 t hne hv1 hv2 ht
    by_cases hw1 : w1 = p.2.2
    · subst hw1
      rw [List.getElem?_set, if_pos rfl] at hv1
      simp only [hidx, if_true, Option.some.injEq] at hv1
      subst hv1
      simp only at ht
      rw [List.getElem?_set, if_neg hne] at hv2
      exact h5 p.2.2 w2 watch0 watch2 t hne hw0 hv2 ht
    · rw [List.getElem?_set, if_neg (fun hc => hw1 hc.symm)] at hv1
      by_cases hw2 : w2 = p.2.2
      · subst hw2
        rw [List.getElem?_set, if_pos rfl] at hv2
        simp only [hidx, if_true, Option.some.injEq] at hv2
        subst hv2
        have := h5 w1 p.2.2 watch1 watch0 t hne hv1 hw0
        simpa using this ht
      · rw [List.getElem?_set, if_neg (fun hc => hw2 hc.symm)] at hv2
        exact h5 w1 w2 watch1 watch2 t hne hv1 hv2 ht
  · intro q hq
    rcases List.mem_append.mp hq with hq | hq
    · have := h6 q hq
      simpa using this
    · rw [List.mem_singleton] at hq
      subst hq
      simpa using hidx
  · intro v
    show ((s.log ++ [(p.2.1, p.2.2)]).filter fun q => q.2 == v).length ≤ 1
    rw [hfc]
    by_cases hv : p.2.2 = v
    · subst hv
      rw [hfired0]
      simp
    · rw [if_neg hv]
      have := h7 v
      omega
  · intro v watchv hv hactv
    by_cases hvw : v = p.2.2
    · subst hvw
      rw [List.getElem?_set, if_pos rfl] at hv
      simp only [hidx, if_true, Option.some.injEq] at hv
      subst hv
      simp at hactv
    · rw [List.getElem?_set, if_neg (fun hc => hvw hc.symm)] at hv
      show ((s.log ++ [(p.2.1, p.2.2)]).filter fun q => q.2 == v).length = 0
      rw [hfc, if_neg (fun hc => hvw hc.symm), h8 v watchv hv hactv]

/-- A property preserved by `f` on live matching watches is preserved by
the element-phase dispatch. -/
lemma forWatchesOn_preserve (e : Nat) (f : Nat → ASys → ASys) (P : ASys → Prop)
    (hf : ∀ (w : Nat) (s' : ASys), P s' →
      (∀ watch : Watch, s'.watches[w]? = some watch →
        watch.elem = e ∧ watch.active = true) →
      P (f w s')) (s : ASys) (hs : P s) : P (forWatchesOn e f s) := by
  rw [forWatchesOn]
  generalize List.range s.watches.length = l
  induction l generalizing s with
  | nil => exact hs
  | cons w r ih =>
    simp only [List.foldl_cons]
    apply ih
    rcases hw : s.watches[w]? with _ | watch
    · simp only [hw]
      exact hs
    · simp only [hw]
      by_cases hg : watch.elem = e ∧ watch.active = true
      · rw [if_pos hg]
        apply hf w s hs
        intro watch1 hw1
        rw [hw] at hw1
        obtain rfl := Option.some.inj hw1
        exact hg
      · rw [if_neg hg]
        exact hs

/-- Delivering any ambient input preserves the detector invariant. -/
lemma AInv_deliverA (s : ASys) (inp : AInput) (hInv : AInv s) : AInv (deliverA s inp) := by
  cases inp with
  | pdown e hit =>
    have hA : AInv (forWatchesOn e startLongPressTimer s) :=
      forWatchesOn_preserve e startLongPressTimer AInv
        (fun w s' hP hg => AInv_start w s' hP fun watch hw => (hg watch hw).2) s hInv
    simp only [deliverA]
    by_cases hh : hit = true
    · rw [if_pos hh]
      apply AInv_start
      · exact AInv_append (forWatchesOn e startLongPressTimer s) e hA
      · intro watch hw
        rw [show ({ forWatchesOn e startLongPressTimer s with
              watches := (forWatchesOn e startLongPressTimer s).watches ++
                [{ elem := e, timerVar := none, active := true }] } : ASys).watches =
            (forWatchesOn e startLongPressTimer s).watches ++
              [{ elem := e, timerVar := none, active := true }] from rfl,
          List.getElem?_concat_length] at hw
        obtain rfl := Option.some.inj hw
        rfl
    · rw [if_neg hh]
      exact hA
  | pup e =>
    exact forWatchesOn_preserve e clearLongPressTimer AInv
      (fun w s' hP _ => AInv_clear w s' hP) s hInv
  | pleave e =>
    exact forWatchesOn_preserve e clearLongPressTimer AInv
      (fun w s' hP _ => AInv_clear w s' hP) s hInv

/-- Advancing the ambient clock preserves the detector invariant. -/
lemma AInv_advanceA :
    ∀ (fuel : Nat) (s : ASys) (t : Nat) (s' : ASys), AInv s →
      advanceA fuel s t = some s' → AInv s' := by
  intro fuel
  induction fuel with
  | zero =>
    intro s t s' hInv h
    rw [advanceA] at h
    rcases hfn : findNextA s t with _ | p
    · rw [hfn] at h
      simp only [Option.some.injEq] at h
      subst h
      exact ⟨hInv.1, hInv.2.1, hInv.2.2.1, hInv.2.2.2.1, hInv.2.2.2.2.1,
        hInv.2.2.2.2.2.1, hInv.2.2.2.2.2.2.1, hInv.2.2.2.2.2.2.2⟩
    · rw [hfn] at h
      cases h
  | succ fuel ih =>
    intro s t s' hInv h
    rw [advanceA] at h
    rcases hfn : findNextA s t with _ | p
    · rw [hfn] at h
      simp only [Option.some.injEq] at h
      subst h
      exact ⟨hInv.1, hInv.2.1, hInv.2.2.1, hInv.2.2.2.1, hInv.2.2.2.2.1,
        hInv.2.2.2.2.2.1, hInv.2.2.2.2.2.2.1, hInv.2.2.2.2.2.2.2⟩
    · rw [hfn] at h
      exact ih (fireA s p) t s' (AInv_fireA s p hInv (findNextA_mem s t p hfn)) h

lemma AInv_runEventsA (fuel : Nat) :
    ∀ (sched : List (Nat × AInput)) (s s' : ASys), AInv s →
      runEventsA fuel s sched = some s' → AInv s' := by
  intro sched
  induction sched with
  | nil =>
    intro s s' hInv h
    simp only [runEventsA, Option.some.injEq] at h
    subst h
    exact hInv
  | cons te rest ih =>
    obtain ⟨t, e⟩ := te
    intro s s' hInv h
    rw [runEventsA] at h
    rcases hadv : advanceA fuel s t with _ | s1
    · rw [hadv] at h
      cases h
    · rw [hadv] at h
      exact ih (deliverA s1 e) s' (AInv_deliverA s1 e (AInv_advanceA fuel s t s1 hInv hadv)) h

lemma AInv_initA : AInv initA := by
  refine ⟨?_, ?_, ?_, ?_, ?_, ?_, ?_, ?_⟩ <;> intros <;> simp_all [initA, firedCount]

lemma AInv_runToA (fuel horizon : Nat) (sched : List (Nat × AInput)) (s : ASys)
    (hrun : runToA fuel sched horizon = some s) : AInv s := by
  rw [runToA] at hrun
  rcases hre : runEventsA fuel initA sched with _ | s1
  · rw [hre] at hrun
    cases hrun
  · rw [hre] at hrun
    exact AInv_advanceA fuel s1 horizon s
      (AInv_runEventsA fuel sched initA s1 AInv_initA hre) hrun

/-- Each watch closure owns at most one pending timer. -/
lemma pendingFor_le_one (s : ASys) (hInv : AInv s) (w : Nat) :
    (pendingFor s w).length ≤ 1 := by
  obtain ⟨h1, h2, h3, _, _, _, _, _⟩ := hInv
  have hmem : ∀ p ∈ pendingFor s w, p ∈ s.pending ∧ p.2.2 = w := by
    intro p hp
    rw [pendingFor, List.mem_filter] at hp
    refine ⟨hp.1, ?_⟩
    have := hp.2
    simpa using this
  by_cases hlen : w < s.watches.length
  · obtain ⟨watch, hw⟩ := watches_exists s w hlen
    rcases htv : watch.timerVar with _ | tid
    · rcases hpf : pendingFor s w with _ | ⟨p0, rest⟩
      · simp
      · exfalso
        have hp0 := hmem p0 (by rw [hpf]; simp)
        have := (h3 p0 hp0.1 watch (by rw [hp0.2]; exact hw)).1
        rw [htv] at this
        cases this
    · apply length_le_one_of_same _ tid
      · rw [pendingFor]
        exact h2.filter _
      · intro p hp
        obtain ⟨hp', hpw⟩ := hmem p hp
        have := (h3 p hp' watch (by rw [hpw]; exact hw)).1
        rw [htv] at this
        exact (Option.some.inj this).symm
  · rcases hpf : pendingFor s w with _ | ⟨p0, rest⟩
    · simp
    · exfalso
      have hp0 := hmem p0 (by rw [hpf]; simp)
      have := (h1 p0 hp0.1).2
      omega

lemma filter_removePending (tid : Nat) (l : List (Nat × Nat × Nat))
    (f : Nat × Nat × Nat → Bool) (h : ∀ p ∈ l, f p = true → p.1 ≠ tid) :
    (removePending tid l).filter f = l.filter f := by
  rw [removePending_eq_filter, List.filter_filter]
  apply List.filter_congr
  intro p hp
  rcases hfp : f p with _ | _
  · simp
  · have := h p hp hfp
    simp [this]

/-- `startLongPressTimer` on another watch touches neither this watch's
record nor its pending timers. -/
lemma start_other (w' : Nat) (s' : ASys) (w : Nat) (watch : Watch) (hInv : AInv s')
    (hw : s'.watches[w]? = some watch) (hne : w' ≠ w) :
    (startLongPressTimer w' s').watches[w]? = some watch ∧
    pendingFor (startLongPressTimer w' s') w = pendingFor s' w := by
  obtain ⟨h1, h2, h3, h4, h5, _, _, _⟩ := hInv
  rcases hw' : s'.watches[w']? with _ | watchp
  · simp only [startLongPressTimer, hw']
    exact ⟨hw, trivial⟩
  · simp only [startLongPressTimer, hw']
    constructor
    · rw [List.getElem?_set, if_neg hne]
      exact hw
    · show ((match watchp.timerVar with
          | some tid => removePending tid s'.pending
          | none => s'.pending) ++
            [(s'.nextId, s'.time + DEFAULT_DELAY, w')]).filter
          (fun p => p.2.2 == w) = pendingFor s' w
      rw [List.filter_append]
      have happ : (([(s'.nextId, s'.time + DEFAULT_DELAY, w')] :
          List (Nat × Nat × Nat)).filter fun p => p.2.2 == w) = [] := by
        simp [fun hc : w' = w => hne hc]
      rw [happ, List.append_nil]
      rcases htv : watchp.timerVar with _ | tid
      · rfl
      · rw [filter_removePending]
        · rfl
        · intro p hp hf
          have hpw : p.2.2 = w := by simpa using hf
          have h3p := (h3 p hp watch (by rw [hpw]; exact hw)).1
          intro hc
          have hdiff := h5 w w' watch watchp p.1 (fun hcc => hne hcc.symm) hw hw' h3p
          exact hdiff (by rw [htv, hc])

/-- `clearLongPressTimer` on another watch touches neither this watch's
record nor its pending timers. -/
lemma clear_other (w' : Nat) (s' : ASys) (w : Nat) (watch : Watch) (hInv : AInv s')
    (hw : s'.watches[w]? = some watch) (hne : w' ≠ w) :
    (clearLongPressTimer w' s').watches[w]? = some watch ∧
    pendingFor (clearLongPressTimer w' s') w = pendingFor s' w := by
  obtain ⟨h1, h2, h3, h4, h5, _, _, _⟩ := hInv
  rcases hw' : s'.watches[w']? with _ | watchp
  · simp only [clearLongPressTimer, hw']
    exact ⟨hw, trivial⟩
  · rcases htv : watchp.timerVar with _ | tid
    · simp only [clearLongPressTimer, hw', htv]
      exact ⟨hw, trivial⟩
    · simp only [clearLongPressTimer, hw', htv]
      refine ⟨hw, ?_⟩
      show (removePending tid s'.pending).filter (fun p => p.2.2 == w) = pendingFor s' w
      rw [filter_removePending]
      · rfl
      · intro p hp hf
        have hpw : p.2.2 = w := by simpa using hf
        have h3p := (h3 p hp watch (by rw [hpw]; exact hw)).1
        intro hc
        have hdiff := h5 w w' watch watchp p.1 (fun hcc => hne hcc.symm) hw hw' h3p
        exact hdiff (by rw [htv, hc])

/-- An ambient input on element `e` leaves every watch of a different
element untouched: same watch record, same pending timers. -/
lemma deliverA_other (s : ASys) (hInv : AInv s) (e : Nat) (w : Nat) (watch : Watch)
    (hw : s.watches[w]? = some watch) (hne : watch.elem ≠ e) :
    ∀ inp : AInput,
      (inp = AInput.pup e ∨ inp = AInput.pleave e ∨ ∃ hit, inp = AInput.pdown e hit) →
      (deliverA s inp).watches[w]? = some watch ∧
      pendingFor (deliverA s inp) w = pendingFor s w := by
  have hPstart : ∀ (f : Nat → ASys → ASys),
      (∀ (w' : Nat) (s' : ASys), AInv s' → (∀ watch0 : Watch,
        s'.watches[w']? = some watch0 → watch0.elem = e ∧ watch0.active = true) →
        AInv (f w' s')) →
      (∀ (w' : Nat) (s' : ASys), AInv s' → s'.watches[w]? = some watch → w' ≠ w →
        (f w' s').watches[w]? = some watch ∧ pendingFor (f w' s') w = pendingFor s' w) →
      AInv (forWatchesOn e f s) ∧
      (forWatchesOn e f s).watches[w]? = some watch ∧
      pendingFor (forWatchesOn e f s) w = pendingFor s w := by
    intro f hfInv hfOther
    exact forWatchesOn_preserve e f
      (fun s' => AInv s' ∧ s'.watches[w]? = some watch ∧ pendingFor s' w = pendingFor s w)
      (by
        intro w' s' hP hg
        obtain ⟨hPInv, hPw, hPpf⟩ := hP
        have hne' : w' ≠ w := by
          intro hc
          subst hc
          obtain ⟨ha, _⟩ := hg watch hPw
          exact hne ha
        obtain ⟨ha, hb⟩ := hfOther w' s' hPInv hPw hne'
        exact ⟨hfInv w' s' hPInv hg, ha, by rw [hb, hPpf]⟩)
      s ⟨hInv, hw, rfl⟩
  intro inp hinp
  rcases hinp with rfl | hinp
  · have := hPstart clearLongPressTimer
      (fun w' s' hP _ => AInv_clear w' s' hP)
      (fun w' s' hP hw' hne' => clear_other w' s' w watch hP hw' hne')
    exact ⟨this.2.1, this.2.2⟩
  rcases hinp with rfl | hinp
  · have := hPstart clearLongPressTimer
      (fun w' s' hP _ => AInv_clear w' s' hP)
      (fun w' s' hP hw' hne' => clear_other w' s' w watch hP hw' hne')
    exact ⟨this.2.1, this.2.2⟩
  · obtain ⟨hit, rfl⟩ := hinp
    have hfold := hPstart startLongPressTimer
      (fun w' s' hP hg => AInv_start w' s' hP fun watch0 hw0 => (hg watch0 hw0).2)
      (fun w' s' hP hw' hne' => start_other w' s' w watch hP hw' hne')
    obtain ⟨hI1, hL1, hP1⟩ := hfold
    simp only [deliverA]
    by_cases hh : hit = true
    · rw [if_pos hh]
      have hwlen : w < (forWatchesOn e startLongPressTimer s).watches.length :=
        (List.getElem?_eq_some.mp hL1).1
      have hL2 : ({ forWatchesOn e startLongPressTimer s with
          watches := (forWatchesOn e startLongPressTimer s).watches ++
            [{ elem := e, timerVar := none, active := true }] } : ASys).watches[w]? =
          some watch := by
        show ((forWatchesOn e startLongPressTimer s).watches ++
          [{ elem := e, timerVar := none, active := true }])[w]? = some watch
        rw [List.getElem?_append, if_pos hwlen]
        exact hL1
      have hI2 := AInv_append (forWatchesOn e startLongPressTimer s) e hI1
      have hne2 : (forWatchesOn e startLongPressTimer s).watches.length ≠ w := by
        omega
      obtain ⟨ha, hb⟩ := start_other
        ((forWatchesOn e startLongPressTimer s).watches.length) _ w watch hI2 hL2 hne2
      refine ⟨ha, ?_⟩
      rw [hb]
      show pendingFor (forWatchesOn e startLongPressTimer s) w = pendingFor s w
      exact hP1
    · rw [if_neg hh]
      exact ⟨hL1, hP1⟩

/-- Counterexample to C7 as stated: two pointer-downs on the same
interactive element (times 0 and 100) leave TWO pending timers for that
element at instant 100 — every pointer-down reaching the document
listener spawns a fresh watch closure, with no "no active watch" guard —
although the claim allows at most one pending timer per element. -/
theorem claim7_counterexample :
    (runToA 8 [(0, AInput.pdown 5 true), (100, AInput.pdown 5 true)] 100).map
      (fun s => pendingForElem s 5) = some 2 := by
  decide

/-- C7, amended: each watch CLOSURE owns at most one pending timer at
any observation point (an element, however, can be covered by several
watches, one per pointer-down that reached the document listener); and
watches of different elements share no mutable state — an input on
element `e` leaves every watch of another element, and its pending
timers, unchanged. -/
theorem claim7_amended (fuel horizon : Nat) (sched : List (Nat × AInput)) (s : ASys)
    (hrun : runToA fuel sched horizon = some s) :
    (∀ w : Nat, (pendingFor s w).length ≤ 1) ∧
    (∀ (e w : Nat) (watch : Watch) (inp : AInput),
      s.watches[w]? = some watch → watch.elem ≠ e →
      (inp = AInput.pup e ∨ inp = AInput.pleave e ∨ ∃ hit, inp = AInput.pdown e hit) →
      (deliverA s inp).watches[w]? = some watch ∧
      pendingFor (deliverA s inp) w = pendingFor s w) := by
  have hInv := AInv_runToA fuel horizon sched s hrun
  exact ⟨fun w => pendingFor_le_one s hInv w,
    fun e w watch inp hw hne hinp => deliverA_other s hInv e w watch hw hne inp hinp⟩

/-- Witness for C7 (amended), at the state after one pointer-down on
element 5. -/
theorem claim7_amended_witness :
    (∀ w : Nat, (pendingFor c7s w).length ≤ 1) ∧
    (∀ (e w : Nat) (watch : Watch) (inp : AInput),
      c7s.watches[w]? = some watch → watch.elem ≠ e →
      (inp = AInput.pup e ∨ inp = AInput.pleave e ∨ ∃ hit, inp = AInput.pdown e hit) →
      (deliverA c7s inp).watches[w]? = some watch ∧
      pendingFor (deliverA c7s inp) w = pendingFor c7s w) :=
  claim7_amended 4 0 [(0, AInput.pdown 5 true)] c7s (by decide)

/-- C8: a watch whose timer fires dispatches exactly one custom nagaoshi
notification and removes its own three element listeners at that moment;
over any run, no watch ever notifies more than once, and a watch that
has notified has its listeners removed. -/
theorem claim8_one_shot (fuel horizon : Nat) (sched : List (Nat × AInput)) (s : ASys)
    (hrun : runToA fuel sched horizon = some s) :
    (∀ w : Nat, firedCount s w ≤ 1) ∧
    (∀ (w : Nat) (watch : Watch), s.watches[w]? = some watch →
      1 ≤ firedCount s w → watch.active = false) ∧
    (∀ (s0 : ASys) (p : Nat × Nat × Nat),
      (fireA s0 p).log = s0.log ++ [(p.2.1, p.2.2)]) ∧
    (∀ (s0 : ASys) (p : Nat × Nat × Nat) (watch : Watch),
      s0.watches[p.2.2]? = some watch →
      (fireA s0 p).watches[p.2.2]? = some { watch with active := false }) := by
  have hInv := AInv_runToA fuel horizon sched s hrun
  obtain ⟨_, _, _, _, _, _, h7, h8⟩ := hInv
  refine ⟨h7, ?_, ?_, ?_⟩
  · intro w watch hw hge
    rcases hact : watch.active with _ | _
    · rfl
    · have := h8 w watch hw hact
      omega
  · intro s0 p
    rcases h : s0.watches[p.2.2]? with _ | watch <;> simp only [fireA, h]
  · intro s0 p watch hw
    simp only [fireA, hw]
    show ((s0.watches.set p.2.2 { watch with active := false })[p.2.2]?) =
      some { watch with active := false }
    rw [List.getElem?_set, if_pos rfl]
    simp [(List.getElem?_eq_some.mp hw).1]

/-- Witness for C8, at the state after the single watch on element 5
fired at time 1000. -/
theorem claim8_one_shot_witness :
    (∀ w : Nat, firedCount c8s w ≤ 1) ∧
    (∀ (w : Nat) (watch : Watch), c8s.watches[w]? = some watch →
      1 ≤ firedCount c8s w → watch.active = false) ∧
    (∀ (s0 : ASys) (p : Nat × Nat × Nat),
      (fireA s0 p).log = s0.log ++ [(p.2.1, p.2.2)]) ∧
    (∀ (s0 : ASys) (p : Nat × Nat × Nat) (watch : Watch),
      s0.watches[p.2.2]? = some watch →
      (fireA s0 p).watches[p.2.2]? = some { watch with active := false }) :=
  claim8_one_shot 4 1000 [(0, AInput.pdown 5 true)] c8s (by decide)

end Nagaoshi
